import Mathlib

/-!
Shallow embedding of the seat-allocator core (`src/cpp/grid_shuffler_alg.hpp`).

Modelling conventions:
* `std::string` labels become `Label := String`; the empty string denotes an
  empty cell, exactly as in the C++ code.
* `Position = std::pair<int,int>` becomes `Int × Int`.
* `std::unordered_map` becomes an association list; `operator[]` with a
  default becomes `(alookup m k).getD dflt`, checked `.at` access becomes a
  `match` on `alookup` whose `none` branch is a modelled fault.
* Out-of-bounds `std::vector` indexing is undefined behaviour in C++; it is
  modelled by the checked access `cellAt?` returning `none`.  The constructor
  reads every cell `grid[i][j]` with `i < rows`, `j < cols`, so construction
  is modelled as `Option`-valued: it yields an engine exactly when all those
  reads are in bounds (`accessesOk`).
* The process-wide RNG used by `shuffle` only determines the per-position
  candidate orders, so `shuffleWith` takes those orders (one list of labels
  per position) as an explicit argument; theorems about `shuffle()` quantify
  over all candidate orders that are permutations of `all_digits`, which are
  exactly the orders `std::ranges::shuffle` can produce.
* The recursive `backtrack` is embedded with an explicit fuel parameter
  (`backtrackF`); `none` marks fuel exhaustion, `some none` a failed search,
  `some (some a)` a successful search with complete assignment `a`.  The
  termination theorem shows fuel `non_empty_positions.length + 1` is never
  exhausted, so the fuelled function is total on the fuel the code's
  recursion depth actually needs.
-/

abbrev Label := String

abbrev Position := Int × Int

abbrev Grid := List (List Label)

abbrev Assignment := List (Position × Label)

abbrev ForbiddenMap := List (Label × List Label)

/-- Checked cell access: `grid[i][j]` with both indexes in range, `none`
otherwise (an out-of-bounds `std::vector` access in the C++ code). -/
def cellAt? (g : Grid) (p : Position) : Option Label :=
  if 0 ≤ p.1 ∧ 0 ≤ p.2 then
    match g.get? p.1.toNat with
    | some row => row.get? p.2.toNat
    | none => none
  else none

/-- Cell access defaulting to the empty label, used where the C++ code
provably stays in bounds. -/
def cellD (g : Grid) (p : Position) : Label := (cellAt? g p).getD ""

/-- The four orthogonal directions, in the order the C++ code lists them. -/
def directions : List Position := [(-1, 0), (1, 0), (0, -1), (0, 1)]

/-- The bounds check `ni >= 0 && ni < rows && nj >= 0 && nj < cols`. -/
def inBounds (rows cols : Nat) (p : Position) : Bool :=
  decide (0 ≤ p.1) && decide (p.1 < (rows : Int)) &&
  decide (0 ≤ p.2) && decide (p.2 < (cols : Int))

/-- Row-major enumeration of all index pairs `(i, j)` with `i < rows`,
`j < cols`, as walked by every construction loop. -/
def idxList (rows cols : Nat) : List Position :=
  (List.range rows).flatMap fun i =>
    (List.range cols).map fun j => (Int.ofNat i, Int.ofNat j)

/-- The in-bounds, non-empty orthogonal neighbors of `p`, in direction
order: the body of the direction loops of `buildForbiddenNeighbors` and
`buildNeighborsMap`. -/
def neighborsOf (g : Grid) (rows cols : Nat) (p : Position) : List Position :=
  directions.filterMap fun d =>
    let n : Position := (p.1 + d.1, p.2 + d.2)
    if inBounds rows cols n ∧ cellD g n ≠ "" then some n else none

/-- Association-list lookup (`unordered_map::find`). -/
def alookup [DecidableEq α] : List (α × β) → α → Option β
  | [], _ => none
  | e :: m, k => if e.1 = k then some e.2 else alookup m k

/-- The keys of an association list. -/
def akeys (m : List (α × β)) : List α := m.map Prod.fst

/-- `m[k] = v`: replace the value at `k` if present, insert otherwise. -/
def assocSet [DecidableEq α] (m : List (α × β)) (k : α) (v : β) : List (α × β) :=
  if (alookup m k).isSome then
    m.map fun e => if e.1 = k then (k, v) else e
  else m ++ [(k, v)]

/-- `unordered_set::insert` on a duplicate-free list. -/
def insertSet [DecidableEq α] (s : List α) (x : α) : List α :=
  if x ∈ s then s else s ++ [x]

/-- `forbidden_neighbors[k].insert(v)` (with `operator[]` default-insert). -/
def insertForbidden (m : ForbiddenMap) (k v : Label) : ForbiddenMap :=
  if (alookup m k).isSome then
    m.map fun e => if e.1 = k then (e.1, insertSet e.2 v) else e
  else m ++ [(k, [v])]

/-- `rows = grid.size()`. -/
def gridRows (g : Grid) : Nat := g.length

/-- `cols = rows > 0 ? grid[0].size() : 0`. -/
def gridCols (g : Grid) : Nat :=
  if 0 < g.length then ((g.head?).getD []).length else 0

/-- The body of the cell loop of `buildForbiddenNeighbors`: skip an empty
cell; otherwise reset the cell's entry to the empty set
(`forbidden_neighbors[tar] = {}`) and insert the label of every in-bounds
non-empty orthogonal neighbor. -/
def fbStep (g : Grid) (rows cols : Nat) (m : ForbiddenMap) (p : Position) :
    ForbiddenMap :=
  if cellD g p = "" then m
  else
    (neighborsOf g rows cols p).foldl
      (fun m q => insertForbidden m (cellD g p) (cellD g q))
      (assocSet m (cellD g p) [])

/-- `GridShuffler::buildForbiddenNeighbors`: run the cell loop over all
index pairs in row-major order. -/
def buildForbiddenNeighbors (g : Grid) (rows cols : Nat) : ForbiddenMap :=
  (idxList rows cols).foldl (fbStep g rows cols) []

/-- The set of neighbor labels a single cell's direction loop accumulates:
the entry `buildForbiddenNeighbors` leaves for the label of `p` when `p` is
the last cell holding that label. -/
def fbEntry (g : Grid) (rows cols : Nat) (p : Position) : List Label :=
  (neighborsOf g rows cols p).foldl (fun s q => insertSet s (cellD g q)) []

/-- `GridShuffler::buildNonEmptyPositions`: row-major list of non-empty
positions. -/
def buildNonEmptyPositions (g : Grid) (rows cols : Nat) : List Position :=
  (idxList rows cols).filter fun p => cellD g p ≠ ""

/-- `GridShuffler::buildNeighborsMap`: one entry per non-empty position,
holding exactly its in-bounds non-empty orthogonal neighbors. -/
def buildNeighborsMap (g : Grid) (rows cols : Nat) : List (Position × List Position) :=
  (buildNonEmptyPositions g rows cols).map fun p => (p, neighborsOf g rows cols p)

/-- The body of the cell loop of `buildOriginalPositions`:
`original_positions[tar] = {i, j}` for a non-empty cell. -/
def opStep (g : Grid) (m : List (Label × Position)) (p : Position) :
    List (Label × Position) :=
  if cellD g p = "" then m else assocSet m (cellD g p) p

/-- `GridShuffler::buildOriginalPositions`: label to position of its last
row-major occurrence (later occurrences overwrite earlier ones). -/
def buildOriginalPositions (g : Grid) (rows cols : Nat) : List (Label × Position) :=
  (idxList rows cols).foldl (opStep g) []

/-- `std::vector(rows, std::vector<std::string>(cols, ""))`. -/
def emptyGrid (rows cols : Nat) : Grid :=
  List.replicate rows (List.replicate cols "")

/-- All cell reads `grid[i][j]`, `i < rows`, `j < cols`, performed by the
construction loops are in bounds.  When some row is shorter than `cols`
(the first row's length) those unchecked reads are out-of-bounds faults,
modelled as failed construction. -/
def accessesOk (g : Grid) (rows cols : Nat) : Bool :=
  (idxList rows cols).all fun p => (cellAt? g p).isSome

/-- The state of a `GridShuffler` object.  (The C++ class also has an
`assignment` member that no member function ever reads or writes; it is
omitted.) -/
structure GridShuffler where
  original_grid : Grid
  shuffled_grid : Grid
  non_empty_positions : List Position
  forbidden_neighbors : ForbiddenMap
  neighbors_map : List (Position × List Position)
  original_positions : List (Label × Position)
  rows : Nat
  cols : Nat
deriving DecidableEq, Inhabited

/-- `GridShuffler::GridShuffler`: store the grid, initialize the output grid
to all-empty, and build the four indices.  Yields `none` when a construction
loop would read out of bounds (rows shorter than the first row). -/
def mkGridShuffler (g : Grid) : Option GridShuffler :=
  let rows := gridRows g
  let cols := gridCols g
  if accessesOk g rows cols then
    some
      { original_grid := g
        shuffled_grid := emptyGrid rows cols
        non_empty_positions := buildNonEmptyPositions g rows cols
        forbidden_neighbors := buildForbiddenNeighbors g rows cols
        neighbors_map := buildNeighborsMap g rows cols
        original_positions := buildOriginalPositions g rows cols
        rows := rows
        cols := cols }
  else none

/-- `forbidden_neighbors | std::views::keys`: the distinct labels. -/
def allDigits (e : GridShuffler) : List Label := akeys e.forbidden_neighbors

/-- `forbidden_neighbors[d]` with `operator[]` default (empty set). -/
def forbList (e : GridShuffler) (d : Label) : List Label :=
  (alookup e.forbidden_neighbors d).getD []

/-- `neighbors_map[p]` with `operator[]` default (empty vector). -/
def nbrsList (e : GridShuffler) (p : Position) : List Position :=
  (alookup e.neighbors_map p).getD []

/-- `GridShuffler::isValidAssignment`: no already-assigned neighbor holds a
label forbidden for `digit`, and `digit`'s original position is not `pos`. -/
def isValidAssignment (e : GridShuffler) (pos : Position) (digit : Label)
    (a : Assignment) : Bool :=
  ((nbrsList e pos).all fun nb =>
    match alookup a nb with
    | some nd => decide (nd ∉ forbList e digit)
    | none => true) &&
  (match alookup e.original_positions digit with
   | some op => decide (op ≠ pos)
   | none => true)

/-- The comparator passed to `std::ranges::min_element` in `backtrack`. -/
def minElemCmp (a : Assignment) (doms : Position → List Label)
    (x y : Position) : Bool :=
  (alookup a x).isNone &&
    ((alookup a y).isSome || decide ((doms x).length < (doms y).length))

/-- `std::ranges::min_element(non_empty_positions, cmp)`: `none` for the
empty range (`end` iterator), otherwise the fold that keeps the current
minimum and replaces it whenever the comparator prefers the new element. -/
def selectPos (l : List Position) (a : Assignment)
    (doms : Position → List Label) : Option Position :=
  match l with
  | [] => none
  | x :: xs => some (xs.foldl (fun best p => if minElemCmp a doms p best then p else best) x)

/-- The candidate loop of `backtrack`: try each digit in order; on an
accepted digit recurse via `recur`; on recursive failure continue with the
next digit (the C++ `erase` is the discarded extended assignment). -/
def tryDigits (e : GridShuffler) (recur : Assignment → Option (Option Assignment))
    (a : Assignment) (pos : Position) : List Label → Option (Option Assignment)
  | [] => some none
  | d :: ds =>
    if isValidAssignment e pos d a then
      match recur ((pos, d) :: a) with
      | none => none
      | some (some r) => some (some r)
      | some none => tryDigits e recur a pos ds
    else tryDigits e recur a pos ds

/-- `GridShuffler::backtrack` with explicit fuel.  `none` is fuel
exhaustion; `some none` is the C++ `return false`; `some (some r)` is the
C++ `return true` with completed assignment `r`. -/
def backtrackF (e : GridShuffler) (doms : Position → List Label) :
    Nat → Assignment → Option (Option Assignment)
  | 0, _ => none
  | fuel + 1, a =>
    if a.length = e.non_empty_positions.length then some (some a)
    else
      match selectPos e.non_empty_positions a doms with
      | none => some none
      | some pos =>
        if (alookup a pos).isSome then some none
        else tryDigits e (backtrackF e doms fuel) a pos (doms pos)

/-- `shuffled_grid[i][j] = digit` for an in-bounds position. -/
def setCell (gr : Grid) (p : Position) (d : Label) : Grid :=
  match gr.get? p.1.toNat with
  | some row => gr.set p.1.toNat (row.set p.2.toNat d)
  | none => gr

/-- The success write-back loop of `shuffle`. -/
def writeBack (gr : Grid) (a : Assignment) : Grid :=
  a.foldl (fun gr pr => setCell gr pr.1 pr.2) gr

/-- `GridShuffler::shuffle`, with the RNG draw made explicit: `doms p` is
the already-shuffled candidate list for position `p` (a permutation of
`all_digits` in every real run).  Returns the success flag together with
the updated engine state. -/
def shuffleWith (e : GridShuffler) (doms : Position → List Label) :
    Bool × GridShuffler :=
  match backtrackF e doms (e.non_empty_positions.length + 1) [] with
  | some (some a) => (true, { e with shuffled_grid := writeBack e.shuffled_grid a })
  | _ => (false, e)

/-- `GridShuffler::getShuffledGrid`. -/
def getShuffledGrid (e : GridShuffler) : Grid := e.shuffled_grid

/-- The neighbor loop of `validateResult`: `forbidden_neighbors.at(digit)`
is a checked lookup evaluated once per neighbor; a missing key is a fault
(`std::out_of_range`), modelled as `none`. -/
def checkNeighbors (e : GridShuffler) (digit : Label) :
    List Position → Option Bool
  | [] => some true
  | nb :: nbs =>
    match alookup e.forbidden_neighbors digit with
    | none => none
    | some s =>
      if cellD e.shuffled_grid nb ∈ s then some false
      else checkNeighbors e digit nbs

/-- The position loop of `validateResult`; `neighbors_map.at(pos)` is a
checked lookup. -/
def validateGo (e : GridShuffler) : List Position → Option Bool
  | [] => some true
  | p :: rest =>
    match alookup e.neighbors_map p with
    | none => none
    | some nbs =>
      match checkNeighbors e (cellD e.shuffled_grid p) nbs with
      | none => none
      | some false => some false
      | some true =>
        match alookup e.original_positions (cellD e.shuffled_grid p) with
        | some op =>
          if cellD e.shuffled_grid op = cellD e.shuffled_grid p then some false
          else validateGo e rest
        | none => validateGo e rest

/-- `GridShuffler::validateResult`: `some b` when every checked map access
succeeds, `none` when one faults. -/
def validateResult (e : GridShuffler) : Option Bool :=
  validateGo e e.non_empty_positions

/-- The labels of the non-empty cells, in row-major order. -/
def gridLabels (g : Grid) : List Label :=
  (buildNonEmptyPositions g (gridRows g) (gridCols g)).map (cellD g)

/-- How many non-empty positions the partial assignment leaves unassigned:
the measure that bounds the recursion depth of `backtrack`. -/
def unassignedCount (e : GridShuffler) (a : Assignment) : Nat :=
  (e.non_empty_positions.filter fun p => (alookup a p).isNone).length

/-- The invariant the search maintains on its partial assignment: keys are
distinct non-empty positions; every assigned digit is one of `all_digits`
and passed the original-position check; and no two assigned neighbors hold
mutually forbidden labels. -/
def GoodA (e : GridShuffler) (a : Assignment) : Prop :=
  (akeys a).Nodup ∧
  (∀ p ∈ akeys a, p ∈ e.non_empty_positions) ∧
  (∀ pr ∈ a, pr.2 ∈ allDigits e ∧ alookup e.original_positions pr.2 ≠ some pr.1) ∧
  (∀ p d q d', alookup a p = some d → alookup a q = some d' →
    q ∈ nbrsList e p → d' ∉ forbList e d)

/-- A grid of exactly `rows` rows of exactly `cols` cells each (the shape
`shuffled_grid` always has). -/
def rectGrid (gr : Grid) (rows cols : Nat) : Prop :=
  gr.length = rows ∧ ∀ row ∈ gr, row.length = cols

/-! Concrete instances used by the scenario claims, counterexamples and
witnesses. -/

/-- The infeasible 1×2 grid of the spec's infeasibility scenario. -/
def grid12 : Grid := [["A", "B"]]

/-- The 3×3 grid of the repository's own tests. -/
def grid33 : Grid := [["1","2","3"],["4","5","6"],["7","8","9"]]

/-- A 1×5 grid with a duplicated label and isolated non-empty cells. -/
def gridDup : Grid := [["A","","A","","B"]]

/-- A 2×2 grid with a duplicated label and real adjacencies. -/
def gridDup2 : Grid := [["A","B"],["A",""]]

/-- A single isolated non-empty cell. -/
def grid1 : Grid := [["A"]]

/-- A 2×2 grid of four distinct labels. -/
def grid22 : Grid := [["A","B"],["C","D"]]

/-- A ragged grid whose second row is longer than the first. -/
def gridBad : Grid := [["A"],["B","C"]]

def E12 : GridShuffler := (mkGridShuffler grid12).getD default

def E33 : GridShuffler := (mkGridShuffler grid33).getD default

def EDup : GridShuffler := (mkGridShuffler gridDup).getD default

def EDup2 : GridShuffler := (mkGridShuffler gridDup2).getD default

def E1 : GridShuffler := (mkGridShuffler grid1).getD default

def E22 : GridShuffler := (mkGridShuffler grid22).getD default

/-- A target label for every position of `grid33`, describing a complete
assignment that satisfies every per-step validity check yet uses the label
1 three times. -/
def tgt33 : Position → Label := fun p =>
  if p = ((0:Int),(0:Int)) then "3"
  else if p = ((0:Int),(1:Int)) then "9"
  else if p = ((0:Int),(2:Int)) then "1"
  else if p = ((1:Int),(0:Int)) then "8"
  else if p = ((1:Int),(1:Int)) then "1"
  else if p = ((1:Int),(2:Int)) then "5"
  else if p = ((2:Int),(0:Int)) then "1"
  else if p = ((2:Int),(1:Int)) then "3"
  else "7"

/-- Candidate orders for `grid33` (each a permutation of `all_digits`, so a
possible RNG draw) placing the target label first everywhere. -/
def doms33 : Position → List Label := fun p =>
  tgt33 p :: (allDigits E33).erase (tgt33 p)

/-- Candidate orders for `gridDup`: the unshuffled `all_digits` everywhere
(a possible RNG draw). -/
def domsDup : Position → List Label := fun _ => allDigits EDup

/-- Candidate orders for `gridDup2` (each a permutation of
`all_digits`). -/
def domsD2 : Position → List Label := fun p =>
  if p = ((0:Int),(0:Int)) then ["B","A"] else ["A","B"]

/-- Candidate orders for `grid22` (each a permutation of `all_digits`). -/
def doms22 : Position → List Label := fun p =>
  if p = ((0:Int),(0:Int)) then "D" :: (allDigits E22).erase "D"
  else "A" :: (allDigits E22).erase "A"

/-- Candidate orders for `grid12`: the unshuffled `all_digits`. -/
def doms12 : Position → List Label := fun _ => ["A", "B"]

set_option maxRecDepth 4000 in
/-- C1: the search accepts a digit without checking whether it is already
used elsewhere (`isValidAssignment` checks only neighbors and the original
position), so a legal RNG draw makes `shuffle()` succeed on the repository's
own 3×3 test grid with an output that repeats the label 1 three times and
drops 2, 4 and 6: the output label multiset differs from the input label
multiset, contradicting the claim (and the repository's own
`AssertNoDuplicates` test). -/
theorem shuffle_success_can_destroy_labels :
    (mkGridShuffler grid33).isSome = true ∧
    (∀ p ∈ E33.non_empty_positions, (doms33 p).Perm (allDigits E33)) ∧
    (shuffleWith E33 doms33).1 = true ∧
    ¬ ((shuffleWith E33 doms33).2.shuffled_grid.flatten.Perm grid33.flatten) := by
  decide

/-- C2 counterexample: on the duplicate-label grid `[["A","","A","","B"]]`
(a legal input grid) a legal RNG draw makes `shuffle()` succeed while the
label at the non-empty position (0,0) is unchanged: `original_positions`
keeps only the last occurrence of a duplicated label, so the derangement
check does not protect earlier occurrences. -/
theorem shuffle_success_not_derangement :
    (mkGridShuffler gridDup).isSome = true ∧
    (∀ p ∈ EDup.non_empty_positions, (domsDup p).Perm (allDigits EDup)) ∧
    (shuffleWith EDup domsDup).1 = true ∧
    ((0:Int),(0:Int)) ∈ EDup.non_empty_positions ∧
    cellD gridDup ((0:Int),(0:Int)) ≠ "" ∧
    cellD (shuffleWith EDup domsDup).2.shuffled_grid ((0:Int),(0:Int)) =
      cellD gridDup ((0:Int),(0:Int)) := by
  decide

/-- C3 counterexample: on the duplicate-label grid `[["A","B"],["A",""]]`
the forbidden-pairs index is not symmetric (processing the second A resets
its entry), and a legal RNG draw makes `shuffle()` succeed with adjacent
output labels B at (0,0) and A at (0,1) although A is a member of
ForbiddenPairs[B]. -/
theorem shuffle_success_violates_adjacency :
    (mkGridShuffler gridDup2).isSome = true ∧
    (∀ p ∈ EDup2.non_empty_positions, (domsD2 p).Perm (allDigits EDup2)) ∧
    (shuffleWith EDup2 domsD2).1 = true ∧
    ((0:Int),(0:Int)) ∈ EDup2.non_empty_positions ∧
    ((0:Int),(1:Int)) ∈ nbrsList EDup2 ((0:Int),(0:Int)) ∧
    cellD (shuffleWith EDup2 domsD2).2.shuffled_grid ((0:Int),(1:Int)) ∈
      forbList EDup2 (cellD (shuffleWith EDup2 domsD2).2.shuffled_grid ((0:Int),(0:Int))) := by
  decide

/-- C4 counterexample: on the duplicate-label grid `[["A","B"],["A",""]]` a
legal RNG draw makes `shuffle()` report success while `validateResult()` on
the resulting grid returns false (the validator checks both directions of
each adjacency, the search only one). -/
theorem shuffle_success_validator_disagrees :
    (mkGridShuffler gridDup2).isSome = true ∧
    (∀ p ∈ EDup2.non_empty_positions, (domsD2 p).Perm (allDigits EDup2)) ∧
    (shuffleWith EDup2 domsD2).1 = true ∧
    validateResult (shuffleWith EDup2 domsD2).2 = some false := by
  decide

/-- C6: when the search fails, `shuffle` returns false without touching any
engine state; the stored output grid (and every other member) is exactly as
before the call. -/
theorem shuffle_failure_keeps_state (e : GridShuffler)
    (doms : Position → List Label)
    (h : (shuffleWith e doms).1 = false) : (shuffleWith e doms).2 = e := by
  unfold shuffleWith at h ⊢
  cases hb : backtrackF e doms (e.non_empty_positions.length + 1) [] with
  | none => simp [hb]
  | some o =>
    cases o with
    | none => simp [hb]
    | some a => rw [hb] at h; simp at h

/-- Witness for C6 at the infeasible 1×2 grid, whose shuffle always
fails. -/
theorem shuffle_failure_keeps_state_witness :
    (shuffleWith E12 doms12).1 = false ∧ (shuffleWith E12 doms12).2 = E12 :=
  ⟨by decide, shuffle_failure_keeps_state E12 doms12 (by decide)⟩

/-- C7 counterexample: the constructor never compares row lengths; on the
ragged grid `[["A"],["B","C"]]` (second row longer than the first) every
cell read `grid[i][j]`, `j < grid[0].size()`, is in bounds, so the engine is
silently built over the malformed grid and no construction error reaches
the caller. -/
theorem construction_accepts_ragged_grid :
    gridBad.map List.length = [1, 2] ∧
    (mkGridShuffler gridBad).isSome = true := by
  decide

/-- C10 counterexample: on `[["A"]]` — a grid with a non-empty cell — the
fresh engine's `validateResult()` does return a boolean (true): the only
non-empty position has no non-empty neighbor, so the faulting lookup
`forbidden_neighbors.at("")` is never evaluated. -/
theorem validateResult_fresh_isolated_returns :
    grid1 = [["A"]] ∧
    E1.non_empty_positions ≠ [] ∧
    validateResult E1 = some true := by
  decide

/-! Association-list lemmas. -/

theorem alookup_nil [DecidableEq α] (k : α) : alookup ([] : List (α × β)) k = none := rfl

theorem alookup_cons [DecidableEq α] (e : α × β) (m : List (α × β)) (k : α) :
    alookup (e :: m) k = if e.1 = k then some e.2 else alookup m k := rfl

theorem alookup_isSome_iff [DecidableEq α] (m : List (α × β)) (k : α) :
    (alookup m k).isSome = true ↔ k ∈ akeys m := by
  induction m with
  | nil => simp [alookup, akeys]
  | cons e m ih =>
    by_cases h : e.1 = k
    · simp [alookup_cons, h, akeys]
    · simp only [alookup_cons, if_neg h, akeys, List.map_cons, List.mem_cons]
      rw [ih]
      unfold akeys
      constructor
      · exact Or.inr
      · rintro (h1 | h2)
        · exact absurd h1.symm h
        · exact h2

theorem alookup_eq_none_iff [DecidableEq α] (m : List (α × β)) (k : α) :
    alookup m k = none ↔ k ∉ akeys m := by
  rw [← alookup_isSome_iff]
  cases alookup m k <;> simp

theorem mem_of_alookup_eq_some [DecidableEq α] {m : List (α × β)} {k : α} {v : β}
    (h : alookup m k = some v) : (k, v) ∈ m := by
  induction m with
  | nil => simp [alookup] at h
  | cons e m ih =>
    rw [alookup_cons] at h
    by_cases he : e.1 = k
    · rw [if_pos he] at h
      injection h with h
      have hekv : e = (k, v) := by
        obtain ⟨e1, e2⟩ := e
        simp only at he h
        rw [he, h]
      rw [← hekv]
      exact List.mem_cons_self _ _
    · rw [if_neg he] at h
      exact List.mem_cons_of_mem _ (ih h)

theorem alookup_map_self [DecidableEq α] (l : List α) (f : α → β) (k : α) :
    alookup (l.map fun x => (x, f x)) k = if k ∈ l then some (f k) else none := by
  induction l with
  | nil => simp [alookup]
  | cons x l ih =>
    rw [List.map_cons, alookup_cons]
    by_cases h : x = k
    · subst h
      simp
    · rw [if_neg h, ih]
      by_cases hk : k ∈ l
      · rw [if_pos hk, if_pos (List.mem_cons_of_mem _ hk)]
      · have hnc : k ∉ x :: l := by
          intro hc
          rcases List.mem_cons.1 hc with rfl | hc2
          · exact h rfl
          · exact hk hc2
        rw [if_neg hk, if_neg hnc]

theorem mem_insertSet [DecidableEq α] (s : List α) (x y : α) :
    x ∈ insertSet s y ↔ x ∈ s ∨ x = y := by
  unfold insertSet
  by_cases h : y ∈ s
  · rw [if_pos h]
    constructor
    · exact Or.inl
    · rintro (h1 | rfl)
      · exact h1
      · exact h
  · rw [if_neg h]
    simp

theorem mem_foldl_insertSet [DecidableEq β] (L : List α) (f : α → β) (s : List β) (x : β) :
    x ∈ L.foldl (fun s q => insertSet s (f q)) s ↔ x ∈ s ∨ ∃ q ∈ L, f q = x := by
  induction L generalizing s with
  | nil => simp
  | cons q L ih =>
    rw [List.foldl_cons, ih, mem_insertSet]
    constructor
    · rintro ((h | h) | ⟨q', hq', hfq'⟩)
      · exact Or.inl h
      · exact Or.inr ⟨q, List.mem_cons_self _ _, h.symm⟩
      · exact Or.inr ⟨q', List.mem_cons_of_mem _ hq', hfq'⟩
    · rintro (h | ⟨q', hq', hfq'⟩)
      · exact Or.inl (Or.inl h)
      · rcases List.mem_cons.1 hq' with rfl | hq'
        · exact Or.inl (Or.inr hfq'.symm)
        · exact Or.inr ⟨q', hq', hfq'⟩

theorem alookup_append_left [DecidableEq α] {m m' : List (α × β)} {k : α}
    (h : alookup m k = none) : alookup (m ++ m') k = alookup m' k := by
  induction m with
  | nil => simp
  | cons e m ih =>
    rw [alookup_cons] at h
    by_cases he : e.1 = k
    · rw [if_pos he] at h
      cases h
    · rw [if_neg he] at h
      rw [List.cons_append, alookup_cons, if_neg he]
      exact ih h

theorem alookup_replace_self [DecidableEq α] (m : List (α × β)) (k : α) (v : β)
    (h : (alookup m k).isSome = true) :
    alookup (m.map fun e => if e.1 = k then (k, v) else e) k = some v := by
  induction m with
  | nil => simp [alookup] at h
  | cons e m ih =>
    rw [alookup_cons] at h
    by_cases he : e.1 = k
    · simp [alookup_cons, he]
    · rw [if_neg he] at h
      rw [List.map_cons, if_neg he, alookup_cons, if_neg he]
      exact ih h

theorem alookup_replace_ne [DecidableEq α] (m : List (α × β)) (k k' : α) (v : β)
    (h : k' ≠ k) :
    alookup (m.map fun e => if e.1 = k then (k, v) else e) k' = alookup m k' := by
  induction m with
  | nil => rfl
  | cons e m ih =>
    rw [List.map_cons]
    by_cases he : e.1 = k
    · rw [if_pos he, alookup_cons, alookup_cons]
      have h1 : ¬((k, v).1 = k') := fun hk => h hk.symm
      have h2 : ¬(e.1 = k') := fun hk => h (he ▸ hk).symm
      rw [if_neg h1, if_neg h2]
      exact ih
    · rw [if_neg he, alookup_cons, alookup_cons]
      by_cases hk' : e.1 = k'
      · rw [if_pos hk', if_pos hk']
      · rw [if_neg hk', if_neg hk']
        exact ih

theorem alookup_append_single_ne [DecidableEq α] (m : List (α × β)) (k k' : α) (v : β)
    (h : k' ≠ k) : alookup (m ++ [(k, v)]) k' = alookup m k' := by
  induction m with
  | nil =>
    rw [List.nil_append, alookup_cons]
    exact if_neg fun hk => h hk.symm
  | cons e m ih =>
    rw [List.cons_append, alookup_cons, alookup_cons]
    by_cases hk' : e.1 = k'
    · rw [if_pos hk', if_pos hk']
    · rw [if_neg hk', if_neg hk']
      exact ih

theorem alookup_assocSet_self [DecidableEq α] (m : List (α × β)) (k : α) (v : β) :
    alookup (assocSet m k v) k = some v := by
  unfold assocSet
  by_cases h : (alookup m k).isSome
  · rw [if_pos h]
    exact alookup_replace_self m k v h
  · rw [if_neg h]
    have hn : alookup m k = none := by
      cases hm : alookup m k
      · rfl
      · rw [hm] at h; simp at h
    rw [alookup_append_left hn, alookup_cons]
    simp

theorem alookup_assocSet_ne [DecidableEq α] (m : List (α × β)) (k k' : α) (v : β)
    (h : k' ≠ k) : alookup (assocSet m k v) k' = alookup m k' := by
  unfold assocSet
  by_cases hs : (alookup m k).isSome
  · rw [if_pos hs]
    exact alookup_replace_ne m k k' v h
  · rw [if_neg hs]
    exact alookup_append_single_ne m k k' v h

theorem mem_assocSet [DecidableEq α] {m : List (α × β)} {k : α} {v : β} {pr : α × β}
    (h : pr ∈ assocSet m k v) : pr ∈ m ∨ pr = (k, v) := by
  unfold assocSet at h
  by_cases hs : (alookup m k).isSome
  · rw [if_pos hs] at h
    rcases List.mem_map.1 h with ⟨e, he, heq⟩
    by_cases hek : e.1 = k
    · rw [if_pos hek] at heq
      exact Or.inr heq.symm
    · rw [if_neg hek] at heq
      exact Or.inl (heq ▸ he)
  · rw [if_neg hs] at h
    rcases List.mem_append.1 h with h1 | h2
    · exact Or.inl h1
    · simp at h2
      exact Or.inr h2

theorem alookup_modify_self [DecidableEq α] (m : List (α × β)) (k : α) (f : β → β)
    {s : β} (h : alookup m k = some s) :
    alookup (m.map fun e => if e.1 = k then (e.1, f e.2) else e) k = some (f s) := by
  induction m with
  | nil => cases h
  | cons e m ih =>
    rw [alookup_cons] at h
    by_cases he : e.1 = k
    · rw [if_pos he] at h
      injection h with h
      subst h
      rw [List.map_cons, if_pos he, alookup_cons, if_pos he]
    · rw [if_neg he] at h
      rw [List.map_cons, if_neg he, alookup_cons, if_neg he]
      exact ih h

theorem alookup_modify_ne [DecidableEq α] (m : List (α × β)) (k k' : α) (f : β → β)
    (h : k' ≠ k) :
    alookup (m.map fun e => if e.1 = k then (e.1, f e.2) else e) k' = alookup m k' := by
  induction m with
  | nil => rfl
  | cons e m ih =>
    rw [List.map_cons]
    by_cases he : e.1 = k
    · rw [if_pos he, alookup_cons, alookup_cons]
      have h2 : ¬(e.1 = k') := fun hk => h (he ▸ hk).symm
      rw [if_neg h2, if_neg h2]
      exact ih
    · rw [if_neg he, alookup_cons, alookup_cons]
      by_cases hk' : e.1 = k'
      · rw [if_pos hk', if_pos hk']
      · rw [if_neg hk', if_neg hk']
        exact ih

theorem alookup_insertForbidden_self (m : ForbiddenMap) (k v : Label) :
    alookup (insertForbidden m k v) k =
      some (insertSet ((alookup m k).getD []) v) := by
  unfold insertForbidden
  cases h : alookup m k with
  | none =>
    rw [if_neg (by simp : ¬((none : Option (List Label)).isSome = true)),
      alookup_append_left h, alookup_cons]
    simp [insertSet]
  | some s =>
    rw [if_pos (by simp : (some s : Option (List Label)).isSome = true)]
    simpa using alookup_modify_self m k (fun t => insertSet t v) h

theorem alookup_insertForbidden_ne (m : ForbiddenMap) (k k' v : Label)
    (h : k' ≠ k) : alookup (insertForbidden m k v) k' = alookup m k' := by
  unfold insertForbidden
  by_cases hs : (alookup m k).isSome
  · rw [if_pos hs]
    exact alookup_modify_ne m k k' (fun t => insertSet t v) h
  · rw [if_neg hs]
    exact alookup_append_single_ne m k k' [v] h

theorem alookup_foldl_insertForbidden_ne {k k' : Label} (h : k' ≠ k)
    (L : List α) (f : α → Label) (m : ForbiddenMap) :
    alookup (L.foldl (fun m q => insertForbidden m k (f q)) m) k' = alookup m k' := by
  induction L generalizing m with
  | nil => rfl
  | cons q L ih =>
    rw [List.foldl_cons, ih]
    exact alookup_insertForbidden_ne m k k' (f q) h

theorem alookup_foldl_insertForbidden_self {k : Label} (L : List α) (f : α → Label)
    (m : ForbiddenMap) {s : List Label} (h : alookup m k = some s) :
    alookup (L.foldl (fun m q => insertForbidden m k (f q)) m) k =
      some (L.foldl (fun s q => insertSet s (f q)) s) := by
  induction L generalizing m s with
  | nil => exact h
  | cons q L ih =>
    rw [List.foldl_cons, List.foldl_cons]
    apply ih
    rw [alookup_insertForbidden_self, h]
    simp

/-! Grid-geometry lemmas. -/

theorem inBounds_iff {rows cols : Nat} {p : Position} :
    inBounds rows cols p = true ↔
      0 ≤ p.1 ∧ p.1 < (rows : Int) ∧ 0 ≤ p.2 ∧ p.2 < (cols : Int) := by
  simp [inBounds, and_assoc]

theorem mem_idxList {rows cols : Nat} {p : Position} :
    p ∈ idxList rows cols ↔
      0 ≤ p.1 ∧ p.1 < (rows : Int) ∧ 0 ≤ p.2 ∧ p.2 < (cols : Int) := by
  obtain ⟨a, b⟩ := p
  unfold idxList
  simp only [List.mem_flatMap, List.mem_map, List.mem_range, Int.ofNat_eq_natCast]
  constructor
  · rintro ⟨i, hi, j, hj, heq⟩
    have h1 := congrArg Prod.fst heq
    have h2 := congrArg Prod.snd heq
    simp only at h1 h2
    subst h1
    subst h2
    refine ⟨by omega, by omega, by omega, by omega⟩
  · rintro ⟨h1, h2, h3, h4⟩
    have h1' : 0 ≤ a := h1
    have h2' : a < (rows : Int) := h2
    have h3' : 0 ≤ b := h3
    have h4' : b < (cols : Int) := h4
    refine ⟨a.toNat, by omega, b.toNat, by omega, ?_⟩
    rw [Prod.mk.injEq]
    constructor <;> omega

theorem mem_idxList_iff_inBounds {rows cols : Nat} {p : Position} :
    p ∈ idxList rows cols ↔ inBounds rows cols p = true := by
  rw [mem_idxList, inBounds_iff]

theorem idxList_succ (rows cols : Nat) :
    idxList (rows + 1) cols =
      idxList rows cols ++
        (List.range cols).map fun j => (Int.ofNat rows, Int.ofNat j) := by
  unfold idxList
  rw [List.range_succ, List.flatMap_append]
  simp

theorem nodup_idxList (rows cols : Nat) : (idxList rows cols).Nodup := by
  induction rows with
  | zero => simp [idxList]
  | succ r ih =>
    rw [idxList_succ, List.nodup_append]
    refine ⟨ih, ?_, ?_⟩
    · refine List.Nodup.map_on ?_ (List.nodup_range cols)
      intro a _ b _ hab
      have h2 := congrArg Prod.snd hab
      simp only [Int.ofNat_eq_natCast] at h2
      exact_mod_cast h2
    · intro x hx1 hx2
      rcases mem_idxList.1 hx1 with ⟨_, hlt, _, _⟩
      rcases List.mem_map.1 hx2 with ⟨j, _, rfl⟩
      simp only [Int.ofNat_eq_natCast] at hlt
      omega

theorem mem_buildNonEmptyPositions {g : Grid} {rows cols : Nat} {p : Position} :
    p ∈ buildNonEmptyPositions g rows cols ↔
      p ∈ idxList rows cols ∧ cellD g p ≠ "" := by
  unfold buildNonEmptyPositions
  rw [List.mem_filter]
  simp

theorem nodup_buildNonEmptyPositions (g : Grid) (rows cols : Nat) :
    (buildNonEmptyPositions g rows cols).Nodup :=
  List.Nodup.filter _ (nodup_idxList rows cols)

theorem mem_neighborsOf {g : Grid} {rows cols : Nat} {p q : Position} :
    q ∈ neighborsOf g rows cols p ↔
      (∃ d ∈ directions, q = (p.1 + d.1, p.2 + d.2)) ∧
        inBounds rows cols q = true ∧ cellD g q ≠ "" := by
  unfold neighborsOf
  rw [List.mem_filterMap]
  constructor
  · rintro ⟨d, hd, hq⟩
    by_cases hc : inBounds rows cols (p.1 + d.1, p.2 + d.2) = true ∧
        cellD g (p.1 + d.1, p.2 + d.2) ≠ ""
    · rw [if_pos hc] at hq
      injection hq with hq
      subst hq
      exact ⟨⟨d, hd, rfl⟩, hc⟩
    · rw [if_neg hc] at hq
      cases hq
  · rintro ⟨⟨d, hd, rfl⟩, hb, hc⟩
    refine ⟨d, hd, ?_⟩
    rw [if_pos ⟨hb, hc⟩]

theorem neighborsOf_ne_self {g : Grid} {rows cols : Nat} {p q : Position}
    (h : q ∈ neighborsOf g rows cols p) : q ≠ p := by
  rcases (mem_neighborsOf.1 h).1 with ⟨d, hd, rfl⟩
  have hd0 : d ≠ ((0 : Int), (0 : Int)) := by
    intro h0
    rw [h0] at hd
    revert hd
    decide
  intro hq
  apply hd0
  have h1 := congrArg Prod.fst hq
  have h2 := congrArg Prod.snd hq
  simp only at h1 h2
  obtain ⟨d1, d2⟩ := d
  rw [Prod.mk.injEq]
  constructor <;> omega

theorem neg_mem_directions {d : Position} (h : d ∈ directions) :
    ((-d.1, -d.2) : Position) ∈ directions := by
  fin_cases h <;> decide

theorem neighborsOf_symm {g : Grid} {rows cols : Nat} {p q : Position}
    (hpb : inBounds rows cols p = true) (hpc : cellD g p ≠ "")
    (h : q ∈ neighborsOf g rows cols p) : p ∈ neighborsOf g rows cols q := by
  rcases mem_neighborsOf.1 h with ⟨⟨d, hd, rfl⟩, _, _⟩
  rw [mem_neighborsOf]
  refine ⟨⟨(-d.1, -d.2), neg_mem_directions hd, ?_⟩, hpb, hpc⟩
  obtain ⟨p1, p2⟩ := p
  simp only
  rw [Prod.mk.injEq]
  constructor <;> omega

theorem mem_neighborsOf_nonEmpty {g : Grid} {rows cols : Nat} {p q : Position}
    (h : q ∈ neighborsOf g rows cols p) :
    q ∈ buildNonEmptyPositions g rows cols := by
  rcases mem_neighborsOf.1 h with ⟨_, hb, hc⟩
  exact mem_buildNonEmptyPositions.2 ⟨mem_idxList_iff_inBounds.2 hb, hc⟩

/-! Characterization of the constructed indices. -/

theorem alookup_fbStep_skip {g : Grid} {rows cols : Nat} {m : ForbiddenMap}
    {p : Position} {t : Label}
    (h : cellD g p = "" ∨ t ≠ cellD g p) :
    alookup (fbStep g rows cols m p) t = alookup m t := by
  unfold fbStep
  by_cases hc : cellD g p = ""
  · rw [if_pos hc]
  · rcases h with h | h
    · exact absurd h hc
    · rw [if_neg hc]
      have h1 := alookup_foldl_insertForbidden_ne h (neighborsOf g rows cols p)
        (fun q => cellD g q) (assocSet m (cellD g p) [])
      rw [h1]
      exact alookup_assocSet_ne m (cellD g p) t [] h

theorem alookup_fbStep_eq {g : Grid} {rows cols : Nat} (m : ForbiddenMap)
    {p : Position} (h : cellD g p ≠ "") :
    alookup (fbStep g rows cols m p) (cellD g p) = some (fbEntry g rows cols p) := by
  unfold fbStep fbEntry
  rw [if_neg h]
  exact alookup_foldl_insertForbidden_self (neighborsOf g rows cols p)
    (fun q => cellD g q) (assocSet m (cellD g p) [])
    (alookup_assocSet_self m (cellD g p) [])

theorem fb_fold_untouched {g : Grid} {rows cols : Nat} {t : Label}
    (P : List Position) (m : ForbiddenMap)
    (h : ∀ p ∈ P, cellD g p ≠ "" → cellD g p ≠ t) :
    alookup (P.foldl (fbStep g rows cols) m) t = alookup m t := by
  induction P generalizing m with
  | nil => rfl
  | cons q P ih =>
    rw [List.foldl_cons, ih _ fun p hp => h p (List.mem_cons_of_mem _ hp)]
    apply alookup_fbStep_skip
    by_cases hq : cellD g q = ""
    · exact Or.inl hq
    · exact Or.inr fun ht => absurd ht.symm (h q (List.mem_cons_self _ _) hq)

theorem fb_fold_processed {g : Grid} {rows cols : Nat}
    (P : List Position) (m : ForbiddenMap) {p : Position}
    (hnd : P.Nodup) (hp : p ∈ P) (ht : cellD g p ≠ "")
    (huniq : ∀ q ∈ P, cellD g q = cellD g p → q = p) :
    alookup (P.foldl (fbStep g rows cols) m) (cellD g p) =
      some (fbEntry g rows cols p) := by
  induction P generalizing m with
  | nil => cases hp
  | cons q P ih =>
    rw [List.foldl_cons]
    rcases List.mem_cons.1 hp with rfl | hp'
    · have hfresh : ∀ q' ∈ P, cellD g q' ≠ "" → cellD g q' ≠ cellD g p := by
        intro q' hq' _ hcq'
        have hq'p : q' = p := huniq q' (List.mem_cons_of_mem _ hq') hcq'
        rw [hq'p] at hq'
        exact (List.nodup_cons.1 hnd).1 hq'
      rw [fb_fold_untouched P _ hfresh]
      exact alookup_fbStep_eq m ht
    · exact ih _ (List.nodup_cons.1 hnd).2 hp'
        (fun q' hq' h' => huniq q' (List.mem_cons_of_mem _ hq') h')

theorem mem_fbEntry {g : Grid} {rows cols : Nat} {p : Position} {x : Label} :
    x ∈ fbEntry g rows cols p ↔ ∃ q ∈ neighborsOf g rows cols p, cellD g q = x := by
  unfold fbEntry
  rw [mem_foldl_insertSet]
  simp

theorem label_unique {g : Grid} {rows cols : Nat}
    (hnd : ((buildNonEmptyPositions g rows cols).map (cellD g)).Nodup)
    {p q : Position} (hq : q ∈ buildNonEmptyPositions g rows cols)
    (hp : p ∈ buildNonEmptyPositions g rows cols)
    (h : cellD g q = cellD g p) : q = p :=
  List.inj_on_of_nodup_map hnd hq hp h

theorem forbidden_lookup_eq {g : Grid} {rows cols : Nat}
    (hnd : ((buildNonEmptyPositions g rows cols).map (cellD g)).Nodup)
    {p : Position} (hp : p ∈ buildNonEmptyPositions g rows cols) :
    alookup (buildForbiddenNeighbors g rows cols) (cellD g p) =
      some (fbEntry g rows cols p) := by
  unfold buildForbiddenNeighbors
  have hpI : p ∈ idxList rows cols := (mem_buildNonEmptyPositions.1 hp).1
  have hne : cellD g p ≠ "" := (mem_buildNonEmptyPositions.1 hp).2
  refine fb_fold_processed _ _ (nodup_idxList rows cols) hpI hne ?_
  intro q hq hcq
  by_cases hqe : cellD g q = ""
  · rw [hqe] at hcq
    exact absurd hcq.symm hne
  · exact label_unique hnd (mem_buildNonEmptyPositions.2 ⟨hq, hqe⟩) hp hcq

theorem forbidden_lookup_none {g : Grid} {rows cols : Nat} {t : Label}
    (h : ∀ p ∈ buildNonEmptyPositions g rows cols, cellD g p ≠ t) :
    alookup (buildForbiddenNeighbors g rows cols) t = none := by
  unfold buildForbiddenNeighbors
  have h1 : ∀ p ∈ idxList rows cols, cellD g p ≠ "" → cellD g p ≠ t := by
    intro p hpI hne
    exact h p (mem_buildNonEmptyPositions.2 ⟨hpI, hne⟩)
  rw [fb_fold_untouched _ _ h1]
  rfl

theorem mem_forb_iff {g : Grid} {rows cols : Nat}
    (hnd : ((buildNonEmptyPositions g rows cols).map (cellD g)).Nodup)
    {d x : Label} :
    x ∈ (alookup (buildForbiddenNeighbors g rows cols) d).getD [] ↔
      ∃ p ∈ buildNonEmptyPositions g rows cols, cellD g p = d ∧
        ∃ q ∈ neighborsOf g rows cols p, cellD g q = x := by
  constructor
  · intro hx
    by_cases hex : ∃ p ∈ buildNonEmptyPositions g rows cols, cellD g p = d
    · rcases hex with ⟨p, hp, rfl⟩
      rw [forbidden_lookup_eq hnd hp] at hx
      simp only [Option.getD_some] at hx
      exact ⟨p, hp, rfl, mem_fbEntry.1 hx⟩
    · have hall : ∀ p ∈ buildNonEmptyPositions g rows cols, cellD g p ≠ d := by
        intro p hp hc
        exact hex ⟨p, hp, hc⟩
      rw [forbidden_lookup_none hall] at hx
      simp at hx
  · rintro ⟨p, hp, rfl, hq⟩
    rw [forbidden_lookup_eq hnd hp]
    simp only [Option.getD_some]
    exact mem_fbEntry.2 hq

theorem forb_symm {g : Grid} {rows cols : Nat}
    (hnd : ((buildNonEmptyPositions g rows cols).map (cellD g)).Nodup)
    {d x : Label}
    (h : x ∈ (alookup (buildForbiddenNeighbors g rows cols) d).getD []) :
    d ∈ (alookup (buildForbiddenNeighbors g rows cols) x).getD [] := by
  rcases (mem_forb_iff hnd).1 h with ⟨p, hp, rfl, q, hq, rfl⟩
  have hqI : q ∈ buildNonEmptyPositions g rows cols := mem_neighborsOf_nonEmpty hq
  have hpb : inBounds rows cols p = true :=
    mem_idxList_iff_inBounds.1 (mem_buildNonEmptyPositions.1 hp).1
  have hpc : cellD g p ≠ "" := (mem_buildNonEmptyPositions.1 hp).2
  exact (mem_forb_iff hnd).2 ⟨q, hqI, rfl, p, neighborsOf_symm hpb hpc hq, rfl⟩

theorem alookup_opStep_skip {g : Grid} {m : List (Label × Position)}
    {p : Position} {t : Label}
    (h : cellD g p = "" ∨ t ≠ cellD g p) :
    alookup (opStep g m p) t = alookup m t := by
  unfold opStep
  by_cases hc : cellD g p = ""
  · rw [if_pos hc]
  · rcases h with h | h
    · exact absurd h hc
    · rw [if_neg hc]
      exact alookup_assocSet_ne m (cellD g p) t p h

theorem alookup_opStep_eq {g : Grid} (m : List (Label × Position))
    {p : Position} (h : cellD g p ≠ "") :
    alookup (opStep g m p) (cellD g p) = some p := by
  unfold opStep
  rw [if_neg h]
  exact alookup_assocSet_self m (cellD g p) p

theorem op_fold_untouched {g : Grid} {t : Label}
    (P : List Position) (m : List (Label × Position))
    (h : ∀ p ∈ P, cellD g p ≠ "" → cellD g p ≠ t) :
    alookup (P.foldl (opStep g) m) t = alookup m t := by
  induction P generalizing m with
  | nil => rfl
  | cons q P ih =>
    rw [List.foldl_cons, ih _ fun p hp => h p (List.mem_cons_of_mem _ hp)]
    apply alookup_opStep_skip
    by_cases hq : cellD g q = ""
    · exact Or.inl hq
    · exact Or.inr fun ht => absurd ht.symm (h q (List.mem_cons_self _ _) hq)

theorem op_fold_processed {g : Grid}
    (P : List Position) (m : List (Label × Position)) {p : Position}
    (hnd : P.Nodup) (hp : p ∈ P) (ht : cellD g p ≠ "")
    (huniq : ∀ q ∈ P, cellD g q = cellD g p → q = p) :
    alookup (P.foldl (opStep g) m) (cellD g p) = some p := by
  induction P generalizing m with
  | nil => cases hp
  | cons q P ih =>
    rw [List.foldl_cons]
    rcases List.mem_cons.1 hp with rfl | hp'
    · have hfresh : ∀ q' ∈ P, cellD g q' ≠ "" → cellD g q' ≠ cellD g p := by
        intro q' hq' _ hcq'
        have hq'p : q' = p := huniq q' (List.mem_cons_of_mem _ hq') hcq'
        rw [hq'p] at hq'
        exact (List.nodup_cons.1 hnd).1 hq'
      rw [op_fold_untouched P _ hfresh]
      exact alookup_opStep_eq m ht
    · exact ih _ (List.nodup_cons.1 hnd).2 hp'
        (fun q' hq' h' => huniq q' (List.mem_cons_of_mem _ hq') h')

theorem originalPositions_lookup_eq {g : Grid} {rows cols : Nat}
    (hnd : ((buildNonEmptyPositions g rows cols).map (cellD g)).Nodup)
    {p : Position} (hp : p ∈ buildNonEmptyPositions g rows cols) :
    alookup (buildOriginalPositions g rows cols) (cellD g p) = some p := by
  unfold buildOriginalPositions
  have hpI : p ∈ idxList rows cols := (mem_buildNonEmptyPositions.1 hp).1
  have hne : cellD g p ≠ "" := (mem_buildNonEmptyPositions.1 hp).2
  refine op_fold_processed _ _ (nodup_idxList rows cols) hpI hne ?_
  intro q hq hcq
  by_cases hqe : cellD g q = ""
  · rw [hqe] at hcq
    exact absurd hcq.symm hne
  · exact label_unique hnd (mem_buildNonEmptyPositions.2 ⟨hq, hqe⟩) hp hcq

theorem originalPositions_lookup_empty {g : Grid} {rows cols : Nat} :
    alookup (buildOriginalPositions g rows cols) "" = none := by
  unfold buildOriginalPositions
  have h1 : ∀ p ∈ idxList rows cols, cellD g p ≠ "" → cellD g p ≠ "" :=
    fun p _ h => h
  rw [op_fold_untouched _ _ h1]
  rfl

theorem op_fold_mem_sound {g : Grid} (P0 P : List Position)
    (m : List (Label × Position))
    (hm : ∀ pr ∈ m, pr.1 ≠ "" ∧ pr.2 ∈ P0 ∧ cellD g pr.2 = pr.1)
    (hP : ∀ p ∈ P, p ∈ P0) :
    ∀ pr ∈ P.foldl (opStep g) m, pr.1 ≠ "" ∧ pr.2 ∈ P0 ∧ cellD g pr.2 = pr.1 := by
  induction P generalizing m with
  | nil => exact hm
  | cons q P ih =>
    rw [List.foldl_cons]
    refine ih _ ?_ fun p hp => hP p (List.mem_cons_of_mem _ hp)
    intro pr hpr
    unfold opStep at hpr
    by_cases hq : cellD g q = ""
    · rw [if_pos hq] at hpr
      exact hm pr hpr
    · rw [if_neg hq] at hpr
      rcases mem_assocSet hpr with h1 | rfl
      · exact hm pr h1
      · exact ⟨hq, hP q (List.mem_cons_self _ _), rfl⟩

theorem originalPositions_sound {g : Grid} {rows cols : Nat} {t : Label}
    {p : Position}
    (h : alookup (buildOriginalPositions g rows cols) t = some p) :
    p ∈ buildNonEmptyPositions g rows cols ∧ cellD g p = t := by
  have hall := op_fold_mem_sound (idxList rows cols) (idxList rows cols) []
    (by simp) (fun p hp => hp) (t, p) (mem_of_alookup_eq_some h)
  obtain ⟨hne, hP0, hcell⟩ := hall
  refine ⟨mem_buildNonEmptyPositions.2 ⟨hP0, ?_⟩, hcell⟩
  rw [hcell]
  exact hne

/-! Constructor and engine-level lemmas. -/

theorem mk_fields {g : Grid} {e : GridShuffler} (h : mkGridShuffler g = some e) :
    e.original_grid = g ∧
    e.shuffled_grid = emptyGrid (gridRows g) (gridCols g) ∧
    e.non_empty_positions = buildNonEmptyPositions g (gridRows g) (gridCols g) ∧
    e.forbidden_neighbors = buildForbiddenNeighbors g (gridRows g) (gridCols g) ∧
    e.neighbors_map = buildNeighborsMap g (gridRows g) (gridCols g) ∧
    e.original_positions = buildOriginalPositions g (gridRows g) (gridCols g) ∧
    e.rows = gridRows g ∧ e.cols = gridCols g := by
  unfold mkGridShuffler at h
  by_cases hc : accessesOk g (gridRows g) (gridCols g) = true
  · simp only [hc, if_true] at h
    injection h with h
    rw [← h]
    exact ⟨rfl, rfl, rfl, rfl, rfl, rfl, rfl, rfl⟩
  · rw [if_neg hc] at h
    cases h

theorem nbrsList_eq {g : Grid} {e : GridShuffler} (h : mkGridShuffler g = some e)
    {p : Position} (hp : p ∈ e.non_empty_positions) :
    alookup e.neighbors_map p =
      some (neighborsOf g (gridRows g) (gridCols g) p) := by
  obtain ⟨-, -, hne, -, hnb, -, -, -⟩ := mk_fields h
  rw [hnb]
  unfold buildNeighborsMap
  rw [alookup_map_self]
  rw [hne] at hp
  rw [if_pos hp]

theorem nbrsList_getD_eq {g : Grid} {e : GridShuffler}
    (h : mkGridShuffler g = some e)
    {p : Position} (hp : p ∈ e.non_empty_positions) :
    nbrsList e p = neighborsOf g (gridRows g) (gridCols g) p := by
  unfold nbrsList
  rw [nbrsList_eq h hp]
  rfl

/-! The position selected by the comparator fold of `backtrack`. -/

theorem selectFold_mem (a : Assignment) (doms : Position → List Label)
    (xs : List Position) (best : Position) :
    xs.foldl (fun best p => if minElemCmp a doms p best then p else best) best ∈
      best :: xs := by
  induction xs generalizing best with
  | nil => exact List.mem_cons_self _ _
  | cons y ys ih =>
    rw [List.foldl_cons]
    by_cases hc : minElemCmp a doms y best = true
    · rw [if_pos hc]
      rcases List.mem_cons.1 (ih y) with h | h
      · rw [h]
        exact List.mem_cons_of_mem _ (List.mem_cons_self _ _)
      · exact List.mem_cons_of_mem _ (List.mem_cons_of_mem _ h)
    · rw [if_neg hc]
      rcases List.mem_cons.1 (ih best) with h | h
      · rw [h]
        exact List.mem_cons_self _ _
      · exact List.mem_cons_of_mem _ (List.mem_cons_of_mem _ h)

theorem selectFold_unassigned (a : Assignment) (doms : Position → List Label)
    (xs : List Position) (best : Position)
    (h : (alookup a best).isNone = true ∨ ∃ p ∈ xs, (alookup a p).isNone = true) :
    (alookup a
      (xs.foldl (fun best p => if minElemCmp a doms p best then p else best)
        best)).isNone = true := by
  induction xs generalizing best with
  | nil =>
    rcases h with h | ⟨p, hp, _⟩
    · exact h
    · cases hp
  | cons y ys ih =>
    rw [List.foldl_cons]
    rcases h with h | ⟨p, hp, hpn⟩
    · by_cases hc : minElemCmp a doms y best = true
      · have hy : (alookup a y).isNone = true := by
          unfold minElemCmp at hc
          simp only [Bool.and_eq_true] at hc
          exact hc.1
        rw [if_pos hc]
        exact ih y (Or.inl hy)
      · rw [if_neg hc]
        exact ih best (Or.inl h)
    · rcases List.mem_cons.1 hp with rfl | hp'
      · by_cases hb : (alookup a best).isNone = true
        · by_cases hc : minElemCmp a doms p best = true
          · rw [if_pos hc]
            have hy : (alookup a p).isNone = true := by
              unfold minElemCmp at hc
              simp only [Bool.and_eq_true] at hc
              exact hc.1
            exact ih p (Or.inl hy)
          · rw [if_neg hc]
            exact ih best (Or.inl hb)
        · have hc : minElemCmp a doms p best = true := by
            unfold minElemCmp
            rw [Bool.and_eq_true]
            refine ⟨hpn, ?_⟩
            rw [Bool.or_eq_true]
            left
            cases hb2 : (alookup a best).isSome
            · exfalso
              apply hb
              rw [Option.isNone_iff_eq_none]
              rcases hb3 : alookup a best with _ | v
              · rfl
              · rw [hb3] at hb2
                simp at hb2
            · rfl
          rw [if_pos hc]
          have hy : (alookup a p).isNone = true := hpn
          exact ih p (Or.inl hy)
      · by_cases hc : minElemCmp a doms y best = true
        · have hy : (alookup a y).isNone = true := by
            unfold minElemCmp at hc
            simp only [Bool.and_eq_true] at hc
            exact hc.1
          rw [if_pos hc]
          exact ih y (Or.inl hy)
        · rw [if_neg hc]
          exact ih best (Or.inr ⟨p, hp', hpn⟩)

theorem selectPos_finds_unassigned (l : List Position) (a : Assignment)
    (doms : Position → List Label)
    (h : ∃ p ∈ l, (alookup a p).isNone = true) :
    ∃ pos, selectPos l a doms = some pos ∧ pos ∈ l ∧
      (alookup a pos).isNone = true := by
  match l with
  | [] =>
    rcases h with ⟨p, hp, _⟩
    cases hp
  | x :: xs =>
    refine ⟨xs.foldl (fun best p => if minElemCmp a doms p best then p else best) x,
      rfl, ?_, ?_⟩
    · exact selectFold_mem a doms xs x
    · rcases h with ⟨p, hp, hpn⟩
      rcases List.mem_cons.1 hp with rfl | hp'
      · exact selectFold_unassigned a doms xs p (Or.inl hpn)
      · exact selectFold_unassigned a doms xs x (Or.inr ⟨p, hp', hpn⟩)

/-! With all domains of equal size the comparator fold degenerates to the
first unassigned position. -/

theorem selectFold_stay (a : Assignment) (doms : Position → List Label)
    (xs : List Position) (best : Position)
    (hb : (alookup a best).isNone = true)
    (hlen : ∀ p ∈ xs, (doms p).length = (doms best).length) :
    xs.foldl (fun best p => if minElemCmp a doms p best then p else best) best =
      best := by
  induction xs with
  | nil => rfl
  | cons y ys ih =>
    rw [List.foldl_cons]
    have hbs : (alookup a best).isSome = false := by
      rcases hv : alookup a best with _ | v
      · rfl
      · rw [hv] at hb
        simp at hb
    have hc : minElemCmp a doms y best = false := by
      unfold minElemCmp
      rw [hbs, hlen y (List.mem_cons_self _ _)]
      simp
    rw [hc, if_neg Bool.false_ne_true]
    exact ih fun p hp => hlen p (List.mem_cons_of_mem _ hp)

theorem selectFold_first (a : Assignment) (doms : Position → List Label)
    (L : List Position)
    (hlen : ∀ p ∈ L, ∀ q ∈ L, (doms p).length = (doms q).length) :
    ∀ (xs : List Position) (best : Position), (∀ p ∈ xs, p ∈ L) → best ∈ L →
      (alookup a best).isNone = false →
      ∀ pos, xs.find? (fun p => (alookup a p).isNone) = some pos →
      xs.foldl (fun best p => if minElemCmp a doms p best then p else best) best =
        pos := by
  intro xs
  induction xs with
  | nil =>
    intro best _ _ _ pos hf
    cases hf
  | cons y ys ih =>
    intro best hsub hbL hb pos hf
    rw [List.foldl_cons]
    rcases hy : (alookup a y).isNone with _ | _
    · have hf' : ys.find? (fun p => (alookup a p).isNone) = some pos := by
        rw [List.find?_cons, hy] at hf
        exact hf
      have hc : minElemCmp a doms y best = false := by
        unfold minElemCmp
        rw [hy]
        simp
      rw [hc, if_neg Bool.false_ne_true]
      exact ih best (fun p hp => hsub p (List.mem_cons_of_mem _ hp)) hbL hb pos hf'
    · have hpos : pos = y := by
        rw [List.find?_cons, hy] at hf
        injection hf with hf
        exact hf.symm
      subst hpos
      have hc : minElemCmp a doms pos best = true := by
        unfold minElemCmp
        rw [hy]
        rw [Option.isNone_eq_false_iff] at hb
        rcases hbs : (alookup a best).isSome with _ | _
        · rw [hbs] at hb
          cases hb
        · simp
      rw [hc, if_pos rfl]
      exact selectFold_stay a doms ys pos hy
        fun p hp => hlen p (hsub p (List.mem_cons_of_mem _ hp))
          pos (hsub pos (List.mem_cons_self _ _))

theorem selectPos_eq_find (l : List Position) (a : Assignment)
    (doms : Position → List Label)
    (hlen : ∀ p ∈ l, ∀ q ∈ l, (doms p).length = (doms q).length)
    {pos : Position}
    (hf : l.find? (fun p => (alookup a p).isNone) = some pos) :
    selectPos l a doms = some pos := by
  match l with
  | [] => cases hf
  | x :: xs =>
    show some _ = some pos
    rcases hx : (alookup a x).isNone with _ | _
    · have hf' : xs.find? (fun p => (alookup a p).isNone) = some pos := by
        rw [List.find?_cons, hx] at hf
        exact hf
      rw [selectFold_first a doms (x :: xs) hlen xs x
        (fun p hp => List.mem_cons_of_mem _ hp) (List.mem_cons_self _ _) hx pos hf']
    · have hpos : pos = x := by
        rw [List.find?_cons, hx] at hf
        injection hf with hf
        exact hf.symm
      subst hpos
      rw [selectFold_stay a doms xs pos hx
        fun p hp => hlen p (List.mem_cons_of_mem _ hp) pos (List.mem_cons_self _ _)]

/-! Termination bookkeeping for the fuelled backtracking search. -/

theorem length_filter_mono (l : List α) (p q : α → Bool)
    (himp : ∀ x, q x = true → p x = true) :
    (l.filter q).length ≤ (l.filter p).length := by
  induction l with
  | nil => exact Nat.le_refl _
  | cons y ys ih =>
    rcases hq : q y with _ | _
    · rw [List.filter_cons, hq]
      rcases hp : p y with _ | _
      · rw [List.filter_cons, hp]
        exact ih
      · rw [List.filter_cons, hp]
        simp only [if_true]
        exact Nat.le_succ_of_le ih
    · rw [List.filter_cons, hq, List.filter_cons, himp y hq]
      simp only [if_true, List.length_cons]
      exact Nat.succ_le_succ ih

theorem length_filter_lt (l : List α) (p q : α → Bool)
    (himp : ∀ x, q x = true → p x = true) (x : α) (hx : x ∈ l)
    (hpx : p x = true) (hqx : q x = false) :
    (l.filter q).length < (l.filter p).length := by
  induction l with
  | nil => cases hx
  | cons y ys ih =>
    rcases List.mem_cons.1 hx with rfl | hx'
    · rw [List.filter_cons, List.filter_cons, hpx, hqx]
      simp only [if_true, Bool.false_eq_true, if_false, List.length_cons]
      exact Nat.lt_succ_of_le (length_filter_mono ys p q himp)
    · rcases hq : q y with _ | _
      · rw [List.filter_cons, hq]
        rcases hp : p y with _ | _
        · rw [List.filter_cons, hp]
          simp only [Bool.false_eq_true, if_false]
          exact ih hx'
        · rw [List.filter_cons, hp]
          simp only [if_true, Bool.false_eq_true, if_false, List.length_cons]
          exact Nat.lt_succ_of_lt (ih hx')
      · rw [List.filter_cons, hq, List.filter_cons, himp y hq]
        simp only [if_true, List.length_cons]
        exact Nat.succ_lt_succ (ih hx')

theorem unassigned_insert_lt (e : GridShuffler) (a : Assignment)
    (pos : Position) (d : Label)
    (hpos : pos ∈ e.non_empty_positions)
    (hnone : (alookup a pos).isNone = true) :
    unassignedCount e ((pos, d) :: a) < unassignedCount e a := by
  unfold unassignedCount
  refine length_filter_lt _ _ _ ?_ pos hpos hnone ?_
  · intro x hx
    rw [alookup_cons] at hx
    by_cases hpx : pos = x
    · rw [if_pos hpx] at hx
      cases hx
    · rw [if_neg hpx] at hx
      exact hx
  · rw [alookup_cons, if_pos rfl]
    rfl

theorem exists_unassigned (e : GridShuffler) (a : Assignment)
    (hkeys : ∀ p ∈ akeys a, p ∈ e.non_empty_positions)
    (hknd : (akeys a).Nodup)
    (hnd : e.non_empty_positions.Nodup)
    (hlen : a.length ≠ e.non_empty_positions.length) :
    ∃ p ∈ e.non_empty_positions, (alookup a p).isNone = true := by
  by_contra hcon
  push_neg at hcon
  apply hlen
  have hsub : e.non_empty_positions ⊆ akeys a := by
    intro p hp
    have h1 := hcon p hp
    rw [← alookup_isSome_iff]
    rcases hv : alookup a p with _ | v
    · exact absurd (by rw [hv]; rfl) h1
    · rfl
  have hsub2 : akeys a ⊆ e.non_empty_positions := fun p hp => hkeys p hp
  have h1 : a.length = (akeys a).length := (List.length_map _ _).symm
  have h2 := (hknd.subperm hsub2).length_le
  have h3 := (hnd.subperm hsub).length_le
  omega

theorem backtrackF_no_timeout (e : GridShuffler) (doms : Position → List Label)
    (hnd : e.non_empty_positions.Nodup) :
    ∀ (fuel : Nat) (a : Assignment),
      (∀ p ∈ akeys a, p ∈ e.non_empty_positions) → (akeys a).Nodup →
      unassignedCount e a < fuel →
      backtrackF e doms fuel a ≠ none := by
  intro fuel
  induction fuel with
  | zero =>
    intro a _ _ h
    exact absurd h (Nat.not_lt_zero _)
  | succ fuel ih =>
    intro a hkeys hknd hfuel
    simp only [backtrackF]
    by_cases hl : a.length = e.non_empty_positions.length
    · rw [if_pos hl]
      simp
    · rw [if_neg hl]
      have hex := exists_unassigned e a hkeys hknd hnd hl
      rcases selectPos_finds_unassigned _ a doms hex with ⟨pos, hsel, hmem, hnone⟩
      rw [hsel]
      show (if (alookup a pos).isSome = true then some none
        else tryDigits e (backtrackF e doms fuel) a pos (doms pos)) ≠ none
      have hns : ¬(alookup a pos).isSome = true := by
        rcases hv : alookup a pos with _ | v
        · simp
        · rw [hv] at hnone
          cases hnone
      rw [if_neg hns]
      have htry : ∀ ds, tryDigits e (backtrackF e doms fuel) a pos ds ≠ none := by
        intro ds
        induction ds with
        | nil => simp [tryDigits]
        | cons d ds ihd =>
          unfold tryDigits
          by_cases hv : isValidAssignment e pos d a = true
          · rw [if_pos hv]
            have hrec : backtrackF e doms fuel ((pos, d) :: a) ≠ none := by
              apply ih
              · intro p hp
                rcases List.mem_cons.1 hp with rfl | hp'
                · exact hmem
                · exact hkeys p hp'
              · have hfresh : pos ∉ akeys a := by
                  rw [← alookup_isSome_iff]
                  exact hns
                exact List.nodup_cons.2 ⟨hfresh, hknd⟩
              · have hdec := unassigned_insert_lt e a pos d hmem hnone
                omega
            rcases hb : backtrackF e doms fuel ((pos, d) :: a) with _ | o
            · exact absurd hb hrec
            · rcases o with _ | r
              · exact ihd
              · simp
          · rw [if_neg hv]
            exact ihd
      exact htry (doms pos)

/-- C8: the backtracking search terminates.  The fuelled embedding
`backtrackF` never exhausts fuel `non_empty_positions.length + 1` (the
recursion depth bound) starting from the empty assignment: each recursive
call strictly shrinks the number of unassigned non-empty positions, which
the fuel bounds, and each level tries only the finitely many candidates of
the selected position's domain. -/
theorem backtrack_terminates (g : Grid) (e : GridShuffler)
    (doms : Position → List Label) (h : mkGridShuffler g = some e) :
    backtrackF e doms (e.non_empty_positions.length + 1) [] ≠ none := by
  obtain ⟨-, -, hne, -, -, -, -, -⟩ := mk_fields h
  apply backtrackF_no_timeout
  · rw [hne]
    exact nodup_buildNonEmptyPositions g _ _
  · intro p hp
    cases hp
  · exact List.nodup_nil
  · unfold unassignedCount
    have hle := List.length_filter_le
      (fun p => (alookup ([] : Assignment) p).isNone) e.non_empty_positions
    omega

/-- Witness for C8 at the 1×2 grid. -/
theorem backtrack_terminates_witness :
    mkGridShuffler grid12 = some E12 ∧
    backtrackF E12 doms12 (E12.non_empty_positions.length + 1) [] ≠ none :=
  ⟨rfl, backtrack_terminates grid12 E12 doms12 rfl⟩

/-- C9: whenever all per-position domains have equal size (as they do in
every `shuffle` run, where each domain is a permutation of `all_digits` and
is never narrowed), the `min_element` comparator fold of `backtrack`
returns exactly the first unassigned position of `non_empty_positions` —
which is built in row-major order — so MRV selection degenerates to
first-unassigned-in-row-major-order. -/
theorem selection_degenerates_to_first_unassigned (e : GridShuffler)
    (a : Assignment) (doms : Position → List Label)
    (hlen : ∀ p ∈ e.non_empty_positions, ∀ q ∈ e.non_empty_positions,
      (doms p).length = (doms q).length)
    (pos : Position)
    (hf : e.non_empty_positions.find? (fun p => (alookup a p).isNone) = some pos) :
    selectPos e.non_empty_positions a doms = some pos :=
  selectPos_eq_find _ a doms hlen hf

/-- Witness for C9: on the 1×2 grid with (0,0) already assigned, the
selection picks (0,1), the first unassigned position in row-major order. -/
theorem selection_degenerates_witness :
    (E12.non_empty_positions.find?
      (fun p => (alookup [((((0:Int),(0:Int)) : Position), "B")] p).isNone) =
        some ((0:Int),(1:Int))) ∧
    selectPos E12.non_empty_positions [((((0:Int),(0:Int)) : Position), "B")]
      doms12 = some ((0:Int),(1:Int)) :=
  ⟨by decide, selection_degenerates_to_first_unassigned E12 _ doms12
    (by decide) _ (by decide)⟩

/-- C7 (amended): the constructor performs no row-length validation.
Modelling its unchecked cell reads, construction yields an engine exactly
when every row is at least as long as the first row (whose length the
constructor takes as the column count, ignoring any extra cells); only a
row shorter than the first makes construction fault, as an out-of-bounds
read rather than a surfaced construction error. -/
theorem mkGridShuffler_isSome_iff (g : Grid) :
    (mkGridShuffler g).isSome = true ↔ ∀ row ∈ g, gridCols g ≤ row.length := by
  unfold mkGridShuffler
  by_cases hc : accessesOk g (gridRows g) (gridCols g) = true
  · rw [if_pos hc]
    simp only [Option.isSome_some, true_iff]
    intro row hrow
    by_contra hlt
    push_neg at hlt
    rcases List.mem_iff_get?.1 hrow with ⟨i, hi⟩
    have hiLt : i < g.length := by
      rcases List.get?_eq_some.1 hi with ⟨hw, -⟩
      exact hw
    have hmem : ((Int.ofNat i, Int.ofNat row.length) : Position) ∈
        idxList (gridRows g) (gridCols g) := by
      rw [mem_idxList]
      unfold gridRows
      refine ⟨by simp, ?_, by simp, ?_⟩
      · simp only [Int.ofNat_eq_natCast]
        exact_mod_cast hiLt
      · simp only [Int.ofNat_eq_natCast]
        exact_mod_cast hlt
    have hsome := List.all_eq_true.1 hc _ hmem
    unfold cellAt? at hsome
    rw [if_pos ⟨by simp, by simp⟩] at hsome
    simp only [Int.ofNat_eq_natCast, Int.toNat_natCast] at hsome
    rw [hi] at hsome
    have hsome2 : (row.get? row.length).isSome = true := hsome
    have hnone : row.get? row.length = none :=
      List.get?_eq_none.2 (Nat.le_refl _)
    rw [hnone] at hsome2
    cases hsome2
  · rw [if_neg hc]
    simp only [Option.isSome_none, Bool.false_eq_true, false_iff]
    intro hrows
    apply hc
    unfold accessesOk
    rw [List.all_eq_true]
    intro p hp
    rcases mem_idxList.1 hp with ⟨h1, h2, h3, h4⟩
    have hlt1 : p.1.toNat < g.length := by
      unfold gridRows at h2
      omega
    obtain ⟨row, hrow⟩ : ∃ row, g.get? p.1.toNat = some row := by
      rcases hg : g.get? p.1.toNat with _ | row
      · rw [List.get?_eq_none] at hg
        omega
      · exact ⟨row, rfl⟩
    have hrowmem : row ∈ g := List.get?_mem hrow
    have hcols := hrows row hrowmem
    have hlt2 : p.2.toNat < row.length := by omega
    unfold cellAt?
    rw [if_pos ⟨h1, h3⟩, hrow]
    show (row.get? p.2.toNat).isSome = true
    rcases hr : row.get? p.2.toNat with _ | x
    · rw [List.get?_eq_none] at hr
      omega
    · rfl

theorem cellD_emptyGrid (rows cols : Nat) (p : Position) :
    cellD (emptyGrid rows cols) p = "" := by
  unfold cellD cellAt? emptyGrid
  by_cases hs : 0 ≤ p.1 ∧ 0 ≤ p.2
  · rw [if_pos hs]
    rcases hg : (List.replicate rows (List.replicate cols "")).get? p.1.toNat
      with _ | row
    · rfl
    · have hrow : row = List.replicate cols "" :=
        List.eq_of_mem_replicate (List.get?_mem hg)
      subst hrow
      show ((List.replicate cols "").get? p.2.toNat).getD "" = ""
      rcases hr : (List.replicate cols "").get? p.2.toNat with _ | x
      · rfl
      · have hx : x = "" := List.eq_of_mem_replicate (List.get?_mem hr)
        rw [hx]
        rfl
  · rw [if_neg hs]
    rfl

theorem forbidden_no_empty_key (g : Grid) (rows cols : Nat) :
    alookup (buildForbiddenNeighbors g rows cols) "" = none :=
  forbidden_lookup_none fun p hp => (mem_buildNonEmptyPositions.1 hp).2

/-- C10 (amended): on every constructed engine one of whose non-empty
positions has at least one non-empty orthogonal neighbor, calling
`validateResult()` before any successful shuffle faults instead of
returning a boolean: the stored output grid still holds the empty label
everywhere, and `forbidden_neighbors.at("")` is a checked lookup of a key
that is never present. -/
theorem validateResult_fresh_faults (g : Grid) (e : GridShuffler)
    (h : mkGridShuffler g = some e)
    (hex : ∃ p ∈ e.non_empty_positions, nbrsList e p ≠ []) :
    validateResult e = none := by
  obtain ⟨-, hsh, -, hfb, -, hop, -, -⟩ := mk_fields h
  unfold validateResult
  have hgo : ∀ L : List Position, (∀ p ∈ L, p ∈ e.non_empty_positions) →
      (∃ p ∈ L, nbrsList e p ≠ []) → validateGo e L = none := by
    intro L
    induction L with
    | nil =>
      rintro _ ⟨p, hp, -⟩
      cases hp
    | cons q L ih =>
      intro hsub hexq
      have hq := hsub q (List.mem_cons_self _ _)
      have hnbq := nbrsList_eq h hq
      have hdig : cellD e.shuffled_grid q = "" := by
        rw [hsh]
        exact cellD_emptyGrid _ _ _
      unfold validateGo
      rw [hnbq, hdig]
      rcases hnn : neighborsOf g (gridRows g) (gridCols g) q with _ | ⟨nb, nbs⟩
      · have hck : checkNeighbors e "" [] = some true := rfl
        show (match checkNeighbors e "" [] with
          | none => none
          | some false => some false
          | some true =>
            match alookup e.original_positions "" with
            | some op =>
              if cellD e.shuffled_grid op = "" then some false else validateGo e L
            | none => validateGo e L) = none
        rw [hck]
        have hoe : alookup e.original_positions "" = none := by
          rw [hop]
          exact originalPositions_lookup_empty
        rw [hoe]
        apply ih
        · intro p hp
          exact hsub p (List.mem_cons_of_mem _ hp)
        · rcases hexq with ⟨p, hp, hpne⟩
          rcases List.mem_cons.1 hp with rfl | hp'
          · exfalso
            apply hpne
            unfold nbrsList
            rw [hnbq, hnn]
            rfl
          · exact ⟨p, hp', hpne⟩
      · have hck : checkNeighbors e "" (nb :: nbs) = none := by
          unfold checkNeighbors
          rw [hfb, forbidden_no_empty_key]
        show (match checkNeighbors e "" (nb :: nbs) with
          | none => none
          | some false => some false
          | some true =>
            match alookup e.original_positions "" with
            | some op =>
              if cellD e.shuffled_grid op = "" then some false else validateGo e L
            | none => validateGo e L) = none
        rw [hck]
  rcases hex with ⟨p0, hp0, hnb0⟩
  exact hgo _ (fun p hp => hp) ⟨p0, hp0, hnb0⟩

/-- Witness for the amended C10 at the 1×2 grid, where (0,0) and (0,1) are
mutual neighbors. -/
theorem validateResult_fresh_faults_witness :
    mkGridShuffler grid12 = some E12 ∧ validateResult E12 = none :=
  ⟨rfl, validateResult_fresh_faults grid12 E12 rfl
    ⟨((0:Int),(0:Int)), by decide, by decide⟩⟩

/-! Soundness of the backtracking search: every completed assignment
satisfies the derangement and (two-sided) adjacency constraints. -/

theorem mem_akeys_of_lookup [DecidableEq α] {m : List (α × β)} {k : α} {v : β}
    (h : alookup m k = some v) : k ∈ akeys m := by
  rw [← alookup_isSome_iff, h]
  rfl

theorem GoodA_nil (e : GridShuffler) : GoodA e [] := by
  refine ⟨List.nodup_nil, ?_, ?_, ?_⟩
  · intro p hp
    cases hp
  · intro pr hpr
    cases hpr
  · intro p d q d' h1 h2 h3
    rw [alookup_nil] at h1
    cases h1

theorem GoodA_insert {g : Grid} {e : GridShuffler} (h : mkGridShuffler g = some e)
    (hnd : ((buildNonEmptyPositions g (gridRows g) (gridCols g)).map (cellD g)).Nodup)
    {a : Assignment} {pos : Position} {d : Label}
    (hG : GoodA e a) (hpos : pos ∈ e.non_empty_positions)
    (hnone : alookup a pos = none)
    (hd : d ∈ allDigits e)
    (hval : isValidAssignment e pos d a = true) :
    GoodA e ((pos, d) :: a) := by
  obtain ⟨hknd, hksub, hvals, hadj⟩ := hG
  obtain ⟨-, -, hne, hfb, -, hop, -, -⟩ := mk_fields h
  unfold isValidAssignment at hval
  rw [Bool.and_eq_true] at hval
  obtain ⟨hval1, hval2⟩ := hval
  rw [List.all_eq_true] at hval1
  have hnoself : ∀ q ∈ nbrsList e pos, q ≠ pos := by
    intro q hq
    rw [nbrsList_getD_eq h hpos] at hq
    exact neighborsOf_ne_self hq
  refine ⟨?_, ?_, ?_, ?_⟩
  · show (pos :: akeys a).Nodup
    refine List.nodup_cons.2 ⟨?_, hknd⟩
    rw [← alookup_isSome_iff, hnone]
    simp
  · intro p hp
    rcases List.mem_cons.1 hp with rfl | hp'
    · exact hpos
    · exact hksub p hp'
  · intro pr hpr
    rcases List.mem_cons.1 hpr with rfl | hpr'
    · refine ⟨hd, ?_⟩
      rcases hv : alookup e.original_positions d with _ | op
      · simp
      · rw [hv] at hval2
        simp only [decide_eq_true_eq] at hval2
        intro hcon
        injection hcon with hcon
        exact hval2 hcon
    · exact hvals pr hpr'
  · intro p dp q dq hp hq hqn
    rw [alookup_cons] at hp hq
    by_cases hpp : pos = p
    · subst hpp
      rw [if_pos rfl] at hp
      injection hp with hp
      subst hp
      by_cases hqq : pos = q
      · exact absurd hqq.symm (hnoself q hqn)
      · rw [if_neg hqq] at hq
        have h1 := hval1 q hqn
        rw [hq] at h1
        simp only [decide_eq_true_eq] at h1
        exact h1
    · rw [if_neg hpp] at hp
      by_cases hqq : pos = q
      · subst hqq
        rw [if_pos rfl] at hq
        injection hq with hq
        subst hq
        have hpmem : p ∈ e.non_empty_positions := hksub p (mem_akeys_of_lookup hp)
        have hqn' : pos ∈ neighborsOf g (gridRows g) (gridCols g) p := by
          rw [← nbrsList_getD_eq h hpmem]
          exact hqn
        have hpb : inBounds (gridRows g) (gridCols g) p = true := by
          rw [hne] at hpmem
          exact mem_idxList_iff_inBounds.1 (mem_buildNonEmptyPositions.1 hpmem).1
        have hpc : cellD g p ≠ "" := by
          rw [hne] at hpmem
          exact (mem_buildNonEmptyPositions.1 hpmem).2
        have hsym : p ∈ nbrsList e pos := by
          rw [nbrsList_getD_eq h hpos]
          exact neighborsOf_symm hpb hpc hqn'
        have h1 := hval1 p hsym
        rw [hp] at h1
        simp only [decide_eq_true_eq] at h1
        intro hcon
        apply h1
        unfold forbList at hcon ⊢
        rw [hfb] at hcon ⊢
        exact forb_symm hnd hcon
      · rw [if_neg hqq] at hq
        exact hadj p dp q dq hp hq hqn

theorem selectPos_mem {l : List Position} {a : Assignment}
    {doms : Position → List Label} {pos : Position}
    (h : selectPos l a doms = some pos) : pos ∈ l := by
  match l with
  | [] => cases h
  | x :: xs =>
    injection h with h
    rw [← h]
    exact selectFold_mem a doms xs x

theorem backtrackF_sound {g : Grid} {e : GridShuffler}
    (h : mkGridShuffler g = some e)
    (hnd : ((buildNonEmptyPositions g (gridRows g) (gridCols g)).map (cellD g)).Nodup)
    (doms : Position → List Label)
    (hdoms : ∀ p ∈ e.non_empty_positions, ∀ d ∈ doms p, d ∈ allDigits e) :
    ∀ (fuel : Nat) (a r : Assignment), GoodA e a →
      backtrackF e doms fuel a = some (some r) →
      GoodA e r ∧ r.length = e.non_empty_positions.length := by
  intro fuel
  induction fuel with
  | zero =>
    intro a r _ hb
    simp only [backtrackF] at hb
    cases hb
  | succ fuel ih =>
    intro a r hG hb
    simp only [backtrackF] at hb
    by_cases hl : a.length = e.non_empty_positions.length
    · rw [if_pos hl] at hb
      injection hb with hb
      injection hb with hb
      subst hb
      exact ⟨hG, hl⟩
    · rw [if_neg hl] at hb
      rcases hsel : selectPos e.non_empty_positions a doms with _ | pos
      · rw [hsel] at hb
        injection hb with hb
        cases hb
      · rw [hsel] at hb
        have hb2 : (if (alookup a pos).isSome = true then some none
            else tryDigits e (backtrackF e doms fuel) a pos (doms pos)) =
              some (some r) := hb
        by_cases hps : (alookup a pos).isSome = true
        · rw [if_pos hps] at hb2
          injection hb2 with hb2
          cases hb2
        · rw [if_neg hps] at hb2
          have hposmem : pos ∈ e.non_empty_positions := selectPos_mem hsel
          have hnonepos : alookup a pos = none := by
            rcases hv : alookup a pos with _ | v
            · rfl
            · rw [hv] at hps
              exact absurd rfl hps
          have htry : ∀ ds, (∀ d ∈ ds, d ∈ allDigits e) →
              tryDigits e (backtrackF e doms fuel) a pos ds = some (some r) →
              GoodA e r ∧ r.length = e.non_empty_positions.length := by
            intro ds
            induction ds with
            | nil =>
              intro _ ht
              unfold tryDigits at ht
              injection ht with ht
              cases ht
            | cons d ds ihd =>
              intro hdm ht
              unfold tryDigits at ht
              by_cases hv : isValidAssignment e pos d a = true
              · rw [if_pos hv] at ht
                rcases hrec : backtrackF e doms fuel ((pos, d) :: a) with _ | o
                · rw [hrec] at ht
                  cases ht
                · rw [hrec] at ht
                  rcases o with _ | r'
                  · have ht2 : tryDigits e (backtrackF e doms fuel) a pos ds =
                        some (some r) := ht
                    exact ihd (fun d' hd' => hdm d' (List.mem_cons_of_mem _ hd')) ht2
                  · have hG' : GoodA e ((pos, d) :: a) :=
                      GoodA_insert h hnd hG hposmem hnonepos
                        (hdm d (List.mem_cons_self _ _)) hv
                    have ht2 : some (some r') = some (some r) := ht
                    injection ht2 with ht2
                    injection ht2 with ht2
                    subst ht2
                    exact ih _ _ hG' hrec
              · rw [if_neg hv] at ht
                exact ihd (fun d' hd' => hdm d' (List.mem_cons_of_mem _ hd')) ht
          exact htry (doms pos) (hdoms pos hposmem) hb2

theorem shuffleWith_eq (e : GridShuffler) (doms : Position → List Label) :
    (∃ r, backtrackF e doms (e.non_empty_positions.length + 1) [] =
        some (some r) ∧
      shuffleWith e doms =
        (true, { e with shuffled_grid := writeBack e.shuffled_grid r })) ∨
    shuffleWith e doms = (false, e) := by
  unfold shuffleWith
  rcases hb : backtrackF e doms (e.non_empty_positions.length + 1) [] with _ | o
  · exact Or.inr rfl
  · rcases o with _ | r
    · exact Or.inr rfl
    · exact Or.inl ⟨r, rfl, rfl⟩

/-! Reading the grid the success branch of `shuffle` writes. -/

theorem rect_emptyGrid (rows cols : Nat) :
    rectGrid (emptyGrid rows cols) rows cols := by
  constructor
  · exact List.length_replicate _ _
  · intro row hrow
    rw [List.eq_of_mem_replicate hrow]
    exact List.length_replicate _ _

theorem rect_setCell {gr : Grid} {rows cols : Nat} (h : rectGrid gr rows cols)
    (p : Position) (d : Label) : rectGrid (setCell gr p d) rows cols := by
  unfold setCell
  rcases hg : gr.get? p.1.toNat with _ | row
  · exact h
  · constructor
    · rw [List.length_set]
      exact h.1
    · intro r hr
      rcases List.mem_iff_get?.1 hr with ⟨n, hn⟩
      by_cases hni : p.1.toNat = n
      · subst hni
        rw [List.get?_set_eq, hg] at hn
        injection hn with hn
        rw [← hn, List.length_set]
        exact h.2 row (List.get?_mem hg)
      · rw [List.get?_set_ne _ _ hni] at hn
        exact h.2 r (List.get?_mem hn)

theorem cellD_setCell_self {gr : Grid} {rows cols : Nat}
    (hrect : rectGrid gr rows cols) {p : Position}
    (hb : inBounds rows cols p = true) (d : Label) :
    cellD (setCell gr p d) p = d := by
  rcases inBounds_iff.1 hb with ⟨h1, h2, h3, h4⟩
  have hlt1 : p.1.toNat < gr.length := by
    rw [hrect.1]
    omega
  obtain ⟨row, hrow⟩ : ∃ row, gr.get? p.1.toNat = some row := by
    rcases hg : gr.get? p.1.toNat with _ | row
    · rw [List.get?_eq_none] at hg
      omega
    · exact ⟨row, rfl⟩
  have hlt2 : p.2.toNat < row.length := by
    rw [hrect.2 row (List.get?_mem hrow)]
    omega
  unfold setCell
  rw [hrow]
  unfold cellD cellAt?
  rw [if_pos ⟨h1, h3⟩, List.get?_set_eq, hrow]
  show ((row.set p.2.toNat d).get? p.2.toNat).getD "" = d
  obtain ⟨x, hx⟩ : ∃ x, row.get? p.2.toNat = some x := by
    rcases hr : row.get? p.2.toNat with _ | x
    · rw [List.get?_eq_none] at hr
      omega
    · exact ⟨x, rfl⟩
  rw [List.get?_set_eq, hx]
  rfl

theorem cellD_setCell_ne {gr : Grid} {p q : Position} (d : Label)
    (hp1 : 0 ≤ p.1) (hp2 : 0 ≤ p.2) (hq1 : 0 ≤ q.1) (hq2 : 0 ≤ q.2)
    (hne : q ≠ p) :
    cellD (setCell gr p d) q = cellD gr q := by
  unfold setCell
  rcases hg : gr.get? p.1.toNat with _ | row
  · rfl
  · unfold cellD cellAt?
    rw [if_pos ⟨hq1, hq2⟩, if_pos ⟨hq1, hq2⟩]
    by_cases hrow : p.1.toNat = q.1.toNat
    · have hc2 : p.2.toNat ≠ q.2.toNat := by
        intro h2
        apply hne
        obtain ⟨a, b⟩ := p
        obtain ⟨c, d2⟩ := q
        simp only at h2 hrow hp1 hp2 hq1 hq2
        rw [Prod.mk.injEq]
        constructor <;> omega
      have hL : (gr.set p.1.toNat (row.set p.2.toNat d)).get? q.1.toNat =
          some (row.set p.2.toNat d) := by
        rw [← hrow, List.get?_set_eq, hg]
        rfl
      have hR : gr.get? q.1.toNat = some row := by
        rw [← hrow]
        exact hg
      rw [hL, hR]
      show ((row.set p.2.toNat d).get? q.2.toNat).getD "" =
        (row.get? q.2.toNat).getD ""
      rw [List.get?_set_ne _ _ hc2]
    · have hL : (gr.set p.1.toNat (row.set p.2.toNat d)).get? q.1.toNat =
          gr.get? q.1.toNat := List.get?_set_ne _ _ hrow
      rw [hL]

theorem writeBack_rect {gr : Grid} {rows cols : Nat}
    (h : rectGrid gr rows cols) (a : Assignment) :
    rectGrid (writeBack gr a) rows cols := by
  induction a generalizing gr with
  | nil => exact h
  | cons pr rest ih =>
    show rectGrid (writeBack (setCell gr pr.1 pr.2) rest) rows cols
    exact ih (rect_setCell h pr.1 pr.2)

theorem cellD_writeBack_not_key {gr : Grid} {a : Assignment} {p : Position}
    (hkeys : ∀ pr ∈ a, 0 ≤ pr.1.1 ∧ 0 ≤ pr.1.2) (hp1 : 0 ≤ p.1) (hp2 : 0 ≤ p.2)
    (hnk : ∀ pr ∈ a, pr.1 ≠ p) :
    cellD (writeBack gr a) p = cellD gr p := by
  induction a generalizing gr with
  | nil => rfl
  | cons pr rest ih =>
    show cellD (writeBack (setCell gr pr.1 pr.2) rest) p = _
    rw [ih (fun x hx => hkeys x (List.mem_cons_of_mem _ hx))
      (fun x hx => hnk x (List.mem_cons_of_mem _ hx))]
    exact cellD_setCell_ne pr.2 (hkeys pr (List.mem_cons_self _ _)).1
      (hkeys pr (List.mem_cons_self _ _)).2 hp1 hp2
      fun hc => hnk pr (List.mem_cons_self _ _) hc.symm

theorem cellD_writeBack_key {gr : Grid} {rows cols : Nat}
    (hrect : rectGrid gr rows cols) {a : Assignment}
    (hknd : (akeys a).Nodup)
    (hbnd : ∀ pr ∈ a, inBounds rows cols pr.1 = true)
    {p : Position} {d : Label} (hmem : (p, d) ∈ a) :
    cellD (writeBack gr a) p = d := by
  induction a generalizing gr with
  | nil => cases hmem
  | cons pr rest ih =>
    rcases List.mem_cons.1 hmem with heq | hmem'
    · subst heq
      show cellD (writeBack (setCell gr p d) rest) p = d
      have hb := hbnd (p, d) (List.mem_cons_self _ _)
      rcases inBounds_iff.1 hb with ⟨h1, h2, h3, h4⟩
      have hfreshnd : p ∉ akeys rest := by
        have : akeys ((p, d) :: rest) = p :: akeys rest := rfl
        rw [this] at hknd
        exact (List.nodup_cons.1 hknd).1
      rw [cellD_writeBack_not_key ?bnds h1 h3 ?fresh]
      · exact cellD_setCell_self hrect hb d
      case bnds =>
        intro x hx
        rcases inBounds_iff.1 (hbnd x (List.mem_cons_of_mem _ hx)) with
          ⟨hx1, hx2, hx3, hx4⟩
        exact ⟨hx1, hx3⟩
      case fresh =>
        intro x hx hcon
        apply hfreshnd
        have hcon' : x.1 = p := hcon
        rw [← hcon']
        exact List.mem_map_of_mem Prod.fst hx
    · show cellD (writeBack (setCell gr pr.1 pr.2) rest) p = d
      have hknd' : (akeys rest).Nodup := by
        have : akeys (pr :: rest) = pr.1 :: akeys rest := rfl
        rw [this] at hknd
        exact (List.nodup_cons.1 hknd).2
      exact ih (rect_setCell hrect pr.1 pr.2) hknd'
        (fun x hx => hbnd x (List.mem_cons_of_mem _ hx)) hmem'

theorem GoodA_complete_covers {e : GridShuffler} {r : Assignment}
    (hG : GoodA e r) (hlen : r.length = e.non_empty_positions.length)
    (hnd : e.non_empty_positions.Nodup) :
    ∀ p ∈ e.non_empty_positions, ∃ d, alookup r p = some d := by
  intro p hp
  obtain ⟨hknd, hksub, -, -⟩ := hG
  have hsub : akeys r ⊆ e.non_empty_positions := fun q hq => hksub q hq
  have hlk : (akeys r).length = e.non_empty_positions.length := by
    unfold akeys
    rw [List.length_map]
    exact hlen
  have hperm : (akeys r).Perm e.non_empty_positions :=
    (hknd.subperm hsub).perm_of_length_le (by omega)
  have hpk : p ∈ akeys r := hperm.mem_iff.2 hp
  rw [← alookup_isSome_iff] at hpk
  rcases hv : alookup r p with _ | d
  · rw [hv] at hpk
    cases hpk
  · exact ⟨d, rfl⟩

theorem shuffle_success_facts {g : Grid} {e : GridShuffler}
    (h : mkGridShuffler g = some e)
    (hnd : ((buildNonEmptyPositions g (gridRows g) (gridCols g)).map (cellD g)).Nodup)
    {doms : Position → List Label}
    (hdoms : ∀ p ∈ e.non_empty_positions, (doms p).Perm (allDigits e))
    (hs : (shuffleWith e doms).1 = true) :
    ∃ r, GoodA e r ∧ r.length = e.non_empty_positions.length ∧
      (shuffleWith e doms).2 =
        { e with shuffled_grid := writeBack e.shuffled_grid r } := by
  rcases shuffleWith_eq e doms with ⟨r, hb, heq⟩ | heq
  · refine ⟨r, ?_, ?_, by rw [heq]⟩
    all_goals {
      have hmem : ∀ p ∈ e.non_empty_positions, ∀ d ∈ doms p, d ∈ allDigits e :=
        fun p hp d hd => ((hdoms p hp).mem_iff).1 hd
      have hsound := backtrackF_sound h hnd doms hmem _ [] r (GoodA_nil e) hb
      first
      | exact hsound.1
      | exact hsound.2
    }
  · rw [heq] at hs
    cases hs

theorem output_cell_eq {g : Grid} {e : GridShuffler}
    (h : mkGridShuffler g = some e) {r : Assignment} (hG : GoodA e r)
    {p : Position} {d : Label} (hl : alookup r p = some d) :
    cellD (writeBack e.shuffled_grid r) p = d := by
  obtain ⟨-, hsh, hne, -, -, -, -, -⟩ := mk_fields h
  obtain ⟨hknd, hksub, -, -⟩ := hG
  have hrect : rectGrid e.shuffled_grid (gridRows g) (gridCols g) := by
    rw [hsh]
    exact rect_emptyGrid _ _
  refine cellD_writeBack_key hrect hknd ?_ (mem_of_alookup_eq_some hl)
  intro pr hpr
  have hmem : pr.1 ∈ e.non_empty_positions :=
    hksub pr.1 (List.mem_map_of_mem Prod.fst hpr)
  rw [hne] at hmem
  exact mem_idxList_iff_inBounds.1 (mem_buildNonEmptyPositions.1 hmem).1

/-- C2 (amended): for every input grid whose non-empty labels are pairwise
distinct, whenever `shuffle()` returns true, every non-empty position's
output label differs from its input label.  (The original claim, over all
grids, fails for duplicated labels because `original_positions` keeps only
the last occurrence.) -/
theorem shuffle_success_derangement (g : Grid) (e : GridShuffler)
    (doms : Position → List Label)
    (h : mkGridShuffler g = some e)
    (hnd : (gridLabels g).Nodup)
    (hdoms : ∀ p ∈ e.non_empty_positions, (doms p).Perm (allDigits e))
    (hs : (shuffleWith e doms).1 = true) :
    ∀ p ∈ e.non_empty_positions,
      cellD (shuffleWith e doms).2.shuffled_grid p ≠ cellD g p := by
  unfold gridLabels at hnd
  obtain ⟨-, -, hne, -, -, hop, -, -⟩ := mk_fields h
  obtain ⟨r, hG, hlen, heq⟩ := shuffle_success_facts h hnd hdoms hs
  intro p hp hcon
  have hndP : e.non_empty_positions.Nodup := by
    rw [hne]
    exact nodup_buildNonEmptyPositions g _ _
  obtain ⟨d, hd⟩ := GoodA_complete_covers hG hlen hndP p hp
  have hout : cellD (shuffleWith e doms).2.shuffled_grid p = d := by
    rw [heq]
    exact output_cell_eq h hG hd
  rw [hout] at hcon
  subst hcon
  have horig : alookup e.original_positions (cellD g p) = some p := by
    rw [hop]
    apply originalPositions_lookup_eq hnd
    rw [← hne]
    exact hp
  have hbad := (hG.2.2.1 (p, cellD g p) (mem_of_alookup_eq_some hd)).2
  exact hbad horig

/-- C3 (amended): for every input grid whose non-empty labels are pairwise
distinct, whenever `shuffle()` returns true, for every pair of orthogonally
adjacent non-empty positions (p, q) the output label at q is not a member
of ForbiddenPairs of the output label at p.  The search checks each
candidate only against already-assigned neighbors and in one direction;
the two-sided property follows from the symmetry of the forbidden-pairs
index, which holds when labels are distinct.  (Over all grids the claim
fails: a duplicated label resets its forbidden entry and breaks
symmetry.) -/
theorem shuffle_success_adjacency (g : Grid) (e : GridShuffler)
    (doms : Position → List Label)
    (h : mkGridShuffler g = some e)
    (hnd : (gridLabels g).Nodup)
    (hdoms : ∀ p ∈ e.non_empty_positions, (doms p).Perm (allDigits e))
    (hs : (shuffleWith e doms).1 = true) :
    ∀ p ∈ e.non_empty_positions, ∀ q ∈ nbrsList e p,
      cellD (shuffleWith e doms).2.shuffled_grid q ∉
        forbList e (cellD (shuffleWith e doms).2.shuffled_grid p) := by
  unfold gridLabels at hnd
  obtain ⟨-, -, hne, -, -, -, -, -⟩ := mk_fields h
  obtain ⟨r, hG, hlen, heq⟩ := shuffle_success_facts h hnd hdoms hs
  intro p hp q hq
  have hndP : e.non_empty_positions.Nodup := by
    rw [hne]
    exact nodup_buildNonEmptyPositions g _ _
  have hqmem : q ∈ e.non_empty_positions := by
    rw [nbrsList_getD_eq h hp] at hq
    rw [hne]
    exact mem_neighborsOf_nonEmpty hq
  obtain ⟨dp, hdp⟩ := GoodA_complete_covers hG hlen hndP p hp
  obtain ⟨dq, hdq⟩ := GoodA_complete_covers hG hlen hndP q hqmem
  have houtp : cellD (shuffleWith e doms).2.shuffled_grid p = dp := by
    rw [heq]
    exact output_cell_eq h hG hdp
  have houtq : cellD (shuffleWith e doms).2.shuffled_grid q = dq := by
    rw [heq]
    exact output_cell_eq h hG hdq
  rw [houtp, houtq]
  exact hG.2.2.2 p dp q dq hdp hdq hq

/-- C4 (amended): for every input grid whose non-empty labels are pairwise
distinct, whenever `shuffle()` returns true, `validateResult()` on the
resulting output grid returns true.  (Over all grids the claim fails: with
a duplicated label the search can succeed on a grid the validator
rejects.) -/
theorem shuffle_success_validates (g : Grid) (e : GridShuffler)
    (doms : Position → List Label)
    (h : mkGridShuffler g = some e)
    (hnd : (gridLabels g).Nodup)
    (hdoms : ∀ p ∈ e.non_empty_positions, (doms p).Perm (allDigits e))
    (hs : (shuffleWith e doms).1 = true) :
    validateResult (shuffleWith e doms).2 = some true := by
  unfold gridLabels at hnd
  obtain ⟨-, -, hne, hfb, -, hop, -, -⟩ := mk_fields h
  obtain ⟨r, hG, hlen, heq⟩ := shuffle_success_facts h hnd hdoms hs
  rw [heq]
  set eo : GridShuffler := { e with shuffled_grid := writeBack e.shuffled_grid r }
    with heo
  have hndP : e.non_empty_positions.Nodup := by
    rw [hne]
    exact nodup_buildNonEmptyPositions g _ _
  have hcov := GoodA_complete_covers hG hlen hndP
  have hout : ∀ p ∈ e.non_empty_positions, ∀ d, alookup r p = some d →
      cellD eo.shuffled_grid p = d := by
    intro p hp d hd
    exact output_cell_eq h hG hd
  have hgo : ∀ L : List Position, (∀ p ∈ L, p ∈ e.non_empty_positions) →
      validateGo eo L = some true := by
    intro L
    induction L with
    | nil =>
      intro _
      rfl
    | cons p L ih =>
      intro hsub
      have hp := hsub p (List.mem_cons_self _ _)
      obtain ⟨dp, hdp⟩ := hcov p hp
      have hdigit : cellD eo.shuffled_grid p = dp := hout p hp dp hdp
      have hnbq : alookup eo.neighbors_map p =
          some (neighborsOf g (gridRows g) (gridCols g) p) := nbrsList_eq h hp
      have hdpall : dp ∈ allDigits e :=
        (hG.2.2.1 (p, dp) (mem_of_alookup_eq_some hdp)).1
      obtain ⟨s, hsfb⟩ : ∃ s, alookup e.forbidden_neighbors dp = some s := by
        have hiso := (alookup_isSome_iff e.forbidden_neighbors dp).2 hdpall
        rcases hv : alookup e.forbidden_neighbors dp with _ | s
        · rw [hv] at hiso
          cases hiso
        · exact ⟨s, rfl⟩
      have hck : ∀ nbs, (∀ nb ∈ nbs, nb ∈ nbrsList e p) →
          checkNeighbors eo dp nbs = some true := by
        intro nbs
        induction nbs with
        | nil =>
          intro _
          rfl
        | cons nb nbs2 ihn =>
          intro hsubn
          unfold checkNeighbors
          have hsfb2 : alookup eo.forbidden_neighbors dp = some s := hsfb
          rw [hsfb2]
          show (if cellD eo.shuffled_grid nb ∈ s then some false
            else checkNeighbors eo dp nbs2) = some true
          have hnbmem : nb ∈ e.non_empty_positions := by
            have h1 := hsubn nb (List.mem_cons_self _ _)
            rw [nbrsList_getD_eq h hp] at h1
            rw [hne]
            exact mem_neighborsOf_nonEmpty h1
          obtain ⟨dnb, hdnb⟩ := hcov nb hnbmem
          have hcell : cellD eo.shuffled_grid nb = dnb := hout nb hnbmem dnb hdnb
          rw [hcell]
          have hnotin : dnb ∉ s := by
            have h2 := hG.2.2.2 p dp nb dnb hdp hdnb
              (hsubn nb (List.mem_cons_self _ _))
            unfold forbList at h2
            rw [hsfb] at h2
            simpa using h2
          rw [if_neg hnotin]
          exact ihn fun nb2 h2 => hsubn nb2 (List.mem_cons_of_mem _ h2)
      unfold validateGo
      rw [hnbq]
      show (match checkNeighbors eo (cellD eo.shuffled_grid p)
          (neighborsOf g (gridRows g) (gridCols g) p) with
        | none => none
        | some false => some false
        | some true =>
          match alookup eo.original_positions (cellD eo.shuffled_grid p) with
          | some op =>
            if cellD eo.shuffled_grid op = cellD eo.shuffled_grid p then some false
            else validateGo eo L
          | none => validateGo eo L) = some true
      rw [hdigit]
      have hallnb : ∀ nb ∈ neighborsOf g (gridRows g) (gridCols g) p,
          nb ∈ nbrsList e p := by
        intro nb hnb
        rw [nbrsList_getD_eq h hp]
        exact hnb
      rw [hck (neighborsOf g (gridRows g) (gridCols g) p) hallnb]
      show (match alookup eo.original_positions dp with
        | some op =>
          if cellD eo.shuffled_grid op = dp then some false
          else validateGo eo L
        | none => validateGo eo L) = some true
      rcases hov : alookup e.original_positions dp with _ | op
      · exact ih fun p2 h2 => hsub p2 (List.mem_cons_of_mem _ h2)
      · show (if cellD eo.shuffled_grid op = dp then some false
          else validateGo eo L) = some true
        have hops : op ∈ buildNonEmptyPositions g (gridRows g) (gridCols g) ∧
            cellD g op = dp := by
          apply originalPositions_sound
          rw [← hop]
          exact hov
        have hopmem : op ∈ e.non_empty_positions := by
          rw [hne]
          exact hops.1
        obtain ⟨dop, hdop⟩ := hcov op hopmem
        have hcellop : cellD eo.shuffled_grid op = dop := hout op hopmem dop hdop
        have hnedop : dop ≠ dp := by
          intro hcon
          subst hcon
          have hbad := (hG.2.2.1 (op, dop) (mem_of_alookup_eq_some hdop)).2
          exact hbad hov
        rw [hcellop, if_neg hnedop]
        exact ih fun p2 h2 => hsub p2 (List.mem_cons_of_mem _ h2)
  exact hgo e.non_empty_positions fun p hp => hp

theorem doms22_perm : ∀ p ∈ E22.non_empty_positions,
    (doms22 p).Perm (allDigits E22) := by
  intro p _
  unfold doms22
  by_cases hc : p = ((0:Int),(0:Int))
  · rw [if_pos hc]
    exact (List.perm_cons_erase (by decide)).symm
  · rw [if_neg hc]
    exact (List.perm_cons_erase (by decide)).symm

/-- Witness for the amended C2: a successful shuffle of the distinct-label
2×2 grid changes the label at (0,0). -/
theorem shuffle_success_derangement_witness :
    (gridLabels grid22).Nodup ∧
    (shuffleWith E22 doms22).1 = true ∧
    cellD (shuffleWith E22 doms22).2.shuffled_grid ((0:Int),(0:Int)) ≠
      cellD grid22 ((0:Int),(0:Int)) :=
  ⟨by decide, by decide,
    shuffle_success_derangement grid22 E22 doms22 rfl (by decide) doms22_perm
      (by decide) ((0:Int),(0:Int)) (by decide)⟩

/-- Witness for the amended C3: in the same successful shuffle, the
adjacent pair ((0,1),(1,1)) satisfies the forbidden-pairs constraint. -/
theorem shuffle_success_adjacency_witness :
    ((1:Int),(1:Int)) ∈ nbrsList E22 ((0:Int),(1:Int)) ∧
    cellD (shuffleWith E22 doms22).2.shuffled_grid ((1:Int),(1:Int)) ∉
      forbList E22 (cellD (shuffleWith E22 doms22).2.shuffled_grid ((0:Int),(1:Int))) :=
  ⟨by decide,
    shuffle_success_adjacency grid22 E22 doms22 rfl (by decide) doms22_perm
      (by decide) ((0:Int),(1:Int)) (by decide) ((1:Int),(1:Int)) (by decide)⟩

/-- Witness for the amended C4: the validator accepts the successful
shuffle of the distinct-label 2×2 grid. -/
theorem shuffle_success_validates_witness :
    (shuffleWith E22 doms22).1 = true ∧
    validateResult (shuffleWith E22 doms22).2 = some true :=
  ⟨by decide,
    shuffle_success_validates grid22 E22 doms22 rfl (by decide) doms22_perm
      (by decide)⟩

/-- C5: on the 1×2 grid [["A","B"]] `shuffle()` returns false for every RNG
draw: A and B are mutually forbidden neighbors and each is barred from its
own position, so (0,0) can only take B, after which no candidate fits
(0,1); the exhaustive search reports failure. -/
theorem shuffle_infeasible_1x2 (doms : Position → List Label)
    (hdoms : ∀ p ∈ E12.non_empty_positions, (doms p).Perm (allDigits E12)) :
    (shuffleWith E12 doms).1 = false := by
  have hmemD : ∀ p ∈ E12.non_empty_positions, ∀ d ∈ doms p,
      d = "A" ∨ d = "B" := by
    intro p hp d hd
    have h2 := ((hdoms p hp).mem_iff).1 hd
    rw [(by decide : allDigits E12 = ["A", "B"])] at h2
    rcases List.mem_cons.1 h2 with rfl | h3
    · exact Or.inl rfl
    · rcases List.mem_cons.1 h3 with rfl | h4
      · exact Or.inr rfl
      · cases h4
  have hlen : ∀ p ∈ E12.non_empty_positions, (doms p).length = 2 := by
    intro p hp
    rw [(hdoms p hp).length_eq]
    decide
  have htry1 : ∀ (recur : Assignment → Option (Option Assignment)) ds,
      (∀ d ∈ ds, d = "A" ∨ d = "B") →
      tryDigits E12 recur [((((0:Int),(0:Int)) : Position), "B")]
        ((0:Int),(1:Int)) ds = some none := by
    intro recur ds
    induction ds with
    | nil =>
      intro _
      rfl
    | cons d ds ih =>
      intro hall
      unfold tryDigits
      rcases hall d (List.mem_cons_self _ _) with rfl | rfl
      · rw [if_neg (by decide : ¬(isValidAssignment E12 ((0:Int),(1:Int)) "A"
          [((((0:Int),(0:Int)) : Position), "B")] = true))]
        exact ih fun d2 hd2 => hall d2 (List.mem_cons_of_mem _ hd2)
      · rw [if_neg (by decide : ¬(isValidAssignment E12 ((0:Int),(1:Int)) "B"
          [((((0:Int),(0:Int)) : Position), "B")] = true))]
        exact ih fun d2 hd2 => hall d2 (List.mem_cons_of_mem _ hd2)
  have hsel1 : selectPos E12.non_empty_positions
      [((((0:Int),(0:Int)) : Position), "B")] doms = some ((0:Int),(1:Int)) := by
    rw [(by decide : E12.non_empty_positions =
      [(((0:Int),(0:Int)) : Position), ((0:Int),(1:Int))])]
    show some (if minElemCmp [((((0:Int),(0:Int)) : Position), "B")] doms
        ((0:Int),(1:Int)) ((0:Int),(0:Int)) = true
      then ((0:Int),(1:Int)) else ((0:Int),(0:Int))) = some ((0:Int),(1:Int))
    have hcmp : minElemCmp [((((0:Int),(0:Int)) : Position), "B")] doms
        ((0:Int),(1:Int)) ((0:Int),(0:Int)) = true := by
      unfold minElemCmp
      rw [(by decide : (alookup [((((0:Int),(0:Int)) : Position), "B")]
          ((0:Int),(1:Int))).isNone = true),
        (by decide : (alookup [((((0:Int),(0:Int)) : Position), "B")]
          ((0:Int),(0:Int))).isSome = true)]
      rw [Bool.true_or, Bool.and_self]
    rw [hcmp, if_pos rfl]
  have hbt1 : ∀ fuel, backtrackF E12 doms (fuel + 1)
      [((((0:Int),(0:Int)) : Position), "B")] = some none := by
    intro fuel
    simp only [backtrackF]
    rw [if_neg (by decide :
      ¬(List.length [((((0:Int),(0:Int)) : Position), "B")] =
        E12.non_empty_positions.length))]
    rw [hsel1]
    show (if (alookup [((((0:Int),(0:Int)) : Position), "B")]
        ((0:Int),(1:Int))).isSome = true then some none
      else tryDigits E12 (backtrackF E12 doms fuel)
        [((((0:Int),(0:Int)) : Position), "B")] ((0:Int),(1:Int))
        (doms ((0:Int),(1:Int)))) = some none
    rw [if_neg (by decide : ¬((alookup [((((0:Int),(0:Int)) : Position), "B")]
      ((0:Int),(1:Int))).isSome = true))]
    exact htry1 _ _ (hmemD ((0:Int),(1:Int)) (by decide))
  have hsel0 : selectPos E12.non_empty_positions [] doms =
      some ((0:Int),(0:Int)) := by
    rw [(by decide : E12.non_empty_positions =
      [(((0:Int),(0:Int)) : Position), ((0:Int),(1:Int))])]
    show some (if minElemCmp [] doms ((0:Int),(1:Int)) ((0:Int),(0:Int)) = true
      then ((0:Int),(1:Int)) else ((0:Int),(0:Int))) = some ((0:Int),(0:Int))
    have hcmp : minElemCmp [] doms ((0:Int),(1:Int)) ((0:Int),(0:Int)) = false := by
      unfold minElemCmp
      rw [hlen ((0:Int),(1:Int)) (by decide), hlen ((0:Int),(0:Int)) (by decide)]
      decide
    rw [hcmp, if_neg Bool.false_ne_true]
  have htry0 : ∀ ds, (∀ d ∈ ds, d = "A" ∨ d = "B") →
      tryDigits E12 (backtrackF E12 doms (1 + 1)) [] ((0:Int),(0:Int)) ds =
        some none := by
    intro ds
    induction ds with
    | nil =>
      intro _
      rfl
    | cons d ds ih =>
      intro hall
      unfold tryDigits
      rcases hall d (List.mem_cons_self _ _) with rfl | rfl
      · rw [if_neg (by decide :
          ¬(isValidAssignment E12 ((0:Int),(0:Int)) "A" [] = true))]
        exact ih fun d2 hd2 => hall d2 (List.mem_cons_of_mem _ hd2)
      · rw [if_pos (by decide :
          isValidAssignment E12 ((0:Int),(0:Int)) "B" [] = true)]
        rw [hbt1 1]
        exact ih fun d2 hd2 => hall d2 (List.mem_cons_of_mem _ hd2)
  have hmain : backtrackF E12 doms (E12.non_empty_positions.length + 1) [] =
      some none := by
    rw [(by decide : E12.non_empty_positions.length = 1 + 1)]
    simp only [backtrackF]
    rw [if_neg (by decide :
      ¬(List.length ([] : Assignment) = E12.non_empty_positions.length))]
    rw [hsel0]
    show (if (alookup ([] : Assignment) ((0:Int),(0:Int))).isSome = true
      then some none
      else tryDigits E12 (backtrackF E12 doms (1 + 1)) [] ((0:Int),(0:Int))
        (doms ((0:Int),(0:Int)))) = some none
    rw [if_neg (by decide :
      ¬((alookup ([] : Assignment) ((0:Int),(0:Int))).isSome = true))]
    exact htry0 _ (hmemD ((0:Int),(0:Int)) (by decide))
  unfold shuffleWith
  rw [hmain]

/-- Witness for C5 at the unshuffled candidate order. -/
theorem shuffle_infeasible_1x2_witness :
    (∀ p ∈ E12.non_empty_positions, (doms12 p).Perm (allDigits E12)) ∧
    (shuffleWith E12 doms12).1 = false :=
  ⟨by decide, shuffle_infeasible_1x2 doms12 (by decide)⟩
